import Mathlib

/-!
Verification of the fsmod record-file layer (codeallergy/fsmod).

The Go sources (csv_files.go, json_files.go, scan.go) are shallowly embedded
below.  Bytes are modelled as `Nat` (values below 256 in any real stream),
files and streams as `List Nat`, and the Go `error` values that the code
distinguishes as the inductive `GoErr`.  Reader objects become explicit state
passing; the Split/Join loops become fuel-indexed recursions that mirror the
Go control flow statement by statement, including the consequences of Go's
short-variable-declaration scoping (`raw, err := reader.ReadRaw()` inside a
loop body declares a fresh `err` that shadows the function-level `err` used by
the loop condition and the post-loop cleanup; `SplitProtoFile` and
`JoinProtoFiles` instead assign with `err =` and are modelled without the
shadow).
-/

namespace Fsmod

/-- Go error values distinguished by the embedded code: `io.EOF`,
`io.ErrUnexpectedEOF` (from `io.ReadFull` short reads), and values produced by
`errors.Errorf` (collapsed to their format string). -/
inductive GoErr : Type where
  | eof : GoErr
  | unexpectedEof : GoErr
  | errorf (msg : String) : GoErr
deriving DecidableEq

/-! ## Line-delimited object codec (json_files.go)

`jsonStreamReader.ReadRaw` / `jsonFileReader.ReadRaw` call
`bufio.Reader.ReadBytes('\n')`, which consumes bytes up to and including the
first newline; at end of input it returns the bytes read so far together with
`io.EOF`.  `readBytesNL` models that call on a pure byte list. -/

def readBytesNL : List Nat → List Nat × List Nat × Option GoErr
  | [] => ([], [], some GoErr.eof)
  | b :: rest =>
      if b = 10 then ([10], rest, none)
      else
        let r := readBytesNL rest
        (b :: r.1, r.2.1, r.2.2)

/-- Encoded form of a record sequence in the line-delimited format: each
record's bytes followed by a single newline byte (`WriteRaw` and `jsonWrite`
both append `'\n'`). -/
def jsonEncode (recs : List (List Nat)) : List Nat :=
  match recs with
  | [] => []
  | r :: rest => r ++ 10 :: jsonEncode rest

/-- State of a `jsonFileReader`/`jsonStreamReader`: the unread bytes and the
`lastErr` field that records a swallowed `io.EOF`. -/
structure JsonReaderSt : Type where
  buf : List Nat
  lastErr : Option GoErr
deriving DecidableEq

/-- Model of `jsonFileReader.ReadRaw` (identical to `jsonStreamReader.ReadRaw`):
if `lastErr` is set it is returned; otherwise the next line is read, a found
trailing newline is stripped, and a final unterminated line is returned as a
record with `io.EOF` recorded in `lastErr` for the next call. -/
def jsonReadRaw (s : JsonReaderSt) : Except GoErr (List Nat) × JsonReaderSt :=
  match s.lastErr with
  | some e => (Except.error e, s)
  | none =>
      let (bin, rem, err) := readBytesNL s.buf
      if bin.length > 0 then
        match err with
        | none => (Except.ok bin.dropLast, ⟨rem, none⟩)
        | some e =>
            if e = GoErr.eof then (Except.ok bin, ⟨rem, some GoErr.eof⟩)
            else (Except.error e, ⟨rem, none⟩)
      else
        match err with
        | some e => (Except.error e, ⟨rem, none⟩)
        | none => (Except.ok [], ⟨rem, none⟩)

/-- Model of `jsonFileReader.Read` (identical to `jsonStreamReader.Read`): like
`ReadRaw` but the line bytes (with their trailing newline still present, as in
the Go code) are fed to the marshaler's `Unmarshal`, abstracted as `um`. -/
def jsonRead {α : Type} (um : List Nat → Except GoErr α) (s : JsonReaderSt) :
    Except GoErr α × JsonReaderSt :=
  match s.lastErr with
  | some e => (Except.error e, s)
  | none =>
      let (bin, rem, err) := readBytesNL s.buf
      match err with
      | none => (um bin, ⟨rem, none⟩)
      | some e =>
          if e = GoErr.eof ∧ bin.length > 0 then (um bin, ⟨rem, some GoErr.eof⟩)
          else (Except.error e, ⟨rem, s.lastErr⟩)

/-! ## Length-prefixed message codec (json_files.go, proto part)

`protoStreamReader.ReadTo` / `protoFileReader.ReadTo` call `io.ReadFull` for a
4-byte big-endian length prefix and then for exactly that many payload bytes.
`io.ReadFull` returns `io.EOF` when zero bytes were read and the buffer was
nonempty, `io.ErrUnexpectedEOF` when it got some but not all requested bytes
(consuming what it read), and succeeds immediately on an empty buffer. -/

def readFull (n : Nat) (s : List Nat) : Except GoErr (List Nat) × List Nat :=
  if n ≤ s.length then (Except.ok (s.take n), s.drop n)
  else if s.length = 0 then (Except.error GoErr.eof, s)
  else (Except.error GoErr.unexpectedEof, [])

/-- Value of `binary.BigEndian.Uint32` on a 4-byte buffer. -/
def be32 (b : List Nat) : Nat :=
  match b with
  | [b0, b1, b2, b3] => b0 % 256 * 2 ^ 24 + b1 % 256 * 2 ^ 16 + b2 % 256 * 2 ^ 8 + b3 % 256
  | _ => 0

/-- Bytes produced by `binary.BigEndian.PutUint32 (uint32 n)`: big-endian, the
`uint32` conversion wrapping modulo `2 ^ 32`. -/
def be32enc (n : Nat) : List Nat :=
  [n / 2 ^ 24 % 256, n / 2 ^ 16 % 256, n / 2 ^ 8 % 256, n % 256]

/-- Model of `protoFileReader.ReadTo` (identical to `protoStreamReader.ReadTo`):
read 4 prefix bytes with `io.ReadFull`, then `blockLen` payload bytes, then
unmarshal the payload into the holder; `um` abstracts `proto.Unmarshal`
together with the holder. The dead `n != len(...)` checks after a nil-error
`ReadFull` are omitted (`ReadFull` guarantees `n == len` on success). -/
def protoReadTo {α : Type} (um : List Nat → Except GoErr α) (s : List Nat) :
    Except GoErr α × List Nat :=
  match readFull 4 s with
  | (Except.error e, s1) => (Except.error e, s1)
  | (Except.ok lenBuf, s1) =>
      match readFull (be32 lenBuf) s1 with
      | (Except.error e, s2) => (Except.error e, s2)
      | (Except.ok block, s2) => (um block, s2)

/-- Bytes of a message sequence in the length-prefixed format, as produced by
`protobufWrite`: for each message the 4-byte big-endian length of its marshaled
blob followed by the blob. -/
def protoEncode {α : Type} (marshal : α → List Nat) (msgs : List α) : List Nat :=
  match msgs with
  | [] => []
  | m :: rest => be32enc (marshal m).length ++ marshal m ++ protoEncode marshal rest

/-! ## Delimited row codec: value transforms (scan.go) and grammar (csv_files.go)

The quoting/escaping grammar itself lives in the external `encoding/csv`
collaborator (the spec's "standard delimited-text grammar"); it is modelled
here with Go's default writer/reader settings (comma delimiter,
`UseCRLF = false`, strict quotes). -/

/-- Keys of the `EmptyValues` map in scan.go. -/
def EmptyValues : List String :=
  ["n/a", "N/A", "N/a", "null", "NULL", "Null", "nil", "NIL", "Nil",
   "nan", "NaN", "Nan", "#", ""]

/-- Model of `PandasFriendly` in scan.go. -/
def PandasFriendly (v : String) : String :=
  if v ∈ EmptyValues then "#" else v

/-- Model of `RemoveHash` in scan.go. -/
def RemoveHash (v : String) : String :=
  if v = "#" then "" else v

/-- Unicode space test of Go's `unicode.IsSpace`, restricted to the Latin-1
range (sufficient for every string the embedded code compares against). -/
def goIsSpace (c : Char) : Bool :=
  c = ' ' || c = '\t' || c = '\n' || c = '\x0b' || c = '\x0c' || c = '\r' ||
  c = '\x85' || c = '\xa0'

/-- Model of `strings.TrimSpace` (the `strings.TrimSpace` value processor the
tests register), over `goIsSpace`. -/
def trimSpace (s : String) : String :=
  String.mk (((s.toList.dropWhile goIsSpace).reverse.dropWhile goIsSpace).reverse)

/-- Model of `zipValues` in csv_files.go: each value is pushed through the
processors in registered order. -/
def zipValues (processors : List (String → String)) (list : List String) : List String :=
  list.map (fun v => processors.foldl (fun v p => p v) v)

/-- Quoting test of the delimited-text writer (Go's
`csv.Writer.fieldNeedsQuotes` with a comma delimiter): empty fields are bare;
a field equal to `\.`, containing a comma, quote, CR or LF, or starting with a
space character, is quoted. -/
def fieldNeedsQuotes (f : String) : Bool :=
  if f = "" then false
  else if f = "\\." then true
  else f.toList.any (fun c => c = ',' || c = '"' || c = '\r' || c = '\n') ||
       (match f.toList with
        | [] => false
        | c :: _ => goIsSpace c)

/-- Quoted form of a field: wrapped in double quotes with inner quotes doubled
(CR and LF are copied through, matching `UseCRLF = false`). -/
def quoteField (f : String) : String :=
  "\"" ++ String.mk (f.toList.flatMap (fun c => if c = '"' then ['"', '"'] else [c])) ++ "\""

def encodeField (f : String) : String :=
  if fieldNeedsQuotes f then quoteField f else f

/-- One row as written by the delimited-text writer: encoded fields joined by
commas, terminated by a single LF. -/
def csvEncodeRow (fields : List String) : String :=
  String.intercalate "," (fields.map encodeField) ++ "\n"

/-- Model of `csvFileWriter.Write` / `csvStreamWriter.Write`: when value
processors are configured (a non-nil slice), values pass through `zipValues`
before reaching the delimited-text writer. -/
def csvWriteRowGo (procs : List (String → String)) (values : List String) : String :=
  match procs with
  | [] => csvEncodeRow values
  | _ :: _ => csvEncodeRow (zipValues procs values)

/-- Body of a quoted field: consume until the closing quote, reading a doubled
quote as one literal quote; `none` on an unterminated quote. -/
def parseQuoted : List Char → List Char → Option (List Char × List Char)
  | [], _ => none
  | '"' :: '"' :: rest, acc => parseQuoted rest (acc ++ ['"'])
  | '"' :: rest, acc => some (acc, rest)
  | c :: rest, acc => parseQuoted rest (acc ++ [c])

/-- One record of the delimited-text reader grammar: fields separated by
commas, the record ended by LF, CRLF or end of input (fuel-indexed; the fuel
argument strictly dominates the characters consumed). -/
def parseRecordAux : Nat → List Char → List Char → List String → Option (List String × List Char)
  | 0, _, _, _ => none
  | _ + 1, [], cur, fields => some (fields ++ [String.mk cur], [])
  | fuel + 1, c :: rest, cur, fields =>
      if c = ',' then parseRecordAux fuel rest [] (fields ++ [String.mk cur])
      else if c = '\n' then some (fields ++ [String.mk cur], rest)
      else if c = '\r' then
        match rest with
        | '\n' :: rest2 => some (fields ++ [String.mk cur], rest2)
        | _ => parseRecordAux fuel rest (cur ++ ['\r']) fields
      else if c = '"' ∧ cur = [] then
        match parseQuoted rest [] with
        | none => none
        | some (f, rest2) => parseRecordAux fuel rest2 f fields
      else parseRecordAux fuel rest (cur ++ [c]) fields

/-- Model of one `csv.Reader.Read` call on the remaining characters: `io.EOF`
on empty input, otherwise the parsed record. -/
def csvParseRecord (cs : List Char) : Option (List String × List Char) :=
  match cs with
  | [] => none
  | _ => parseRecordAux (cs.length + 1) cs [] []

/-- Model of `csvFileReader.Read` / `csvStreamReader.Read`: parse the next row,
then apply the configured value processors in order. -/
def csvReadGo (procs : List (String → String)) (cs : List Char) :
    Except GoErr (List String) × List Char :=
  match csvParseRecord cs with
  | none => (Except.error GoErr.eof, cs)
  | some (fields, rest) =>
      match procs with
      | [] => (Except.ok fields, rest)
      | _ :: _ => (Except.ok (zipValues procs fields), rest)

/-! ## Layered writer teardown (Close methods)

A file writer is constructed as `fd` (from `os.Create`), `fw` (`bufio.Writer`
over `fd`), and — when gzip is in play — `gzw` (`gzip.Writer` over `fw`) and
`bw` (`bufio.Writer` over `gzw`).  `Close` is a straight-line sequence of
teardown calls; each call's outcome is injected through `CloseEnv` so the
returned error can be compared with the errors the layers actually raised. -/

inductive Layer : Type where
  | bw : Layer
  | gzw : Layer
  | fw : Layer
  | fd : Layer
deriving DecidableEq

/-- Outcome of each layer teardown call that `Close` can make. -/
structure CloseEnv : Type where
  bwFlushErr : Option GoErr
  gzwFlushErr : Option GoErr
  gzwCloseErr : Option GoErr
  fwFlushErr : Option GoErr
  fdCloseErr : Option GoErr
deriving DecidableEq

/-- Model of `jsonFileWriter.Close` (same shape as `protoFileWriter.Close`):
flush `bw` and flush-and-close `gzw` when gzip is present (results discarded),
flush `fw` (result discarded), close `fd` and return only that error.  The
first component lists the teardown calls performed, in order. -/
def jsonFileWriterClose (hasGz : Bool) (env : CloseEnv) : List Layer × Option GoErr :=
  ((if hasGz then [Layer.bw, Layer.gzw] else []) ++ [Layer.fw, Layer.fd], env.fdCloseErr)

/-- Model of `csvFileWriter.Close`: `csvw.Flush` (whose error is only
observable via the unchecked `csvw.Error()`), then the gzip layers, then `fw`
flush, then `fd` close whose error alone is returned. The `csvw` flush is the
innermost teardown; it is folded into the `bw` slot of `CloseEnv`. -/
def csvFileWriterClose (hasGz : Bool) (env : CloseEnv) : List Layer × Option GoErr :=
  (Layer.bw :: (if hasGz then [Layer.gzw] else []) ++ [Layer.fw, Layer.fd], env.fdCloseErr)

/-- Model of `jsonStreamWriter.Close` (same shape as `protoStreamWriter.Close`):
no file descriptor; the returned error is the one from `gzw.Close()` when gzip
is present (the flush errors of `bw` and `fw` are discarded), `nil` otherwise. -/
def jsonStreamWriterClose (hasGz : Bool) (env : CloseEnv) : List Layer × Option GoErr :=
  ((if hasGz then [Layer.bw, Layer.gzw] else []) ++ [Layer.fw],
   if hasGz then env.gzwCloseErr else none)

/-- First error raised among the teardown calls, in the order `Close` makes
them (what the claim says `Close` returns). -/
def firstCloseErr (hasGz : Bool) (env : CloseEnv) : Option GoErr :=
  ((if hasGz then [env.bwFlushErr, env.gzwFlushErr, env.gzwCloseErr] else [])
      ++ [env.fwFlushErr, env.fdCloseErr]).findSome? id

/-- Construction order of the layers of a file writer (innermost last). -/
def buildOrder (hasGz : Bool) : List Layer :=
  Layer.fd :: Layer.fw :: (if hasGz then [Layer.gzw, Layer.bw] else [])

/-! ## Record File Service: Split (SplitCsvFile, SplitJsonFile, SplitProtoFile)

The three Split functions share one loop shape
(`for cnt := limit; err == nil; cnt++`).  `SplitJsonFile` and `SplitCsvFile`
read with a short variable declaration (`raw, err := reader.ReadRaw()` /
`row, err := reader.Read()`), which declares a fresh `err` scoped to the loop
body and shadows the function-level `err` tested by the loop condition and by
the post-loop cleanup; `SplitProtoFile` assigns `err =` to the function-level
variable.  The loop below is parameterized by `shadowed` accordingly; its
second result component is the value of the function-level `err` after the
loop. -/

/-- Split loop state: the reader, the Go locals (`cnt`, `partNum`, `parts`),
the already-closed part files with their written records, the open writer with
its records (`writer` in Go), and a running index of write calls used to
inject write outcomes. -/
structure SplitSt (σ ρ : Type) : Type where
  reader : σ
  cnt : Int
  partNum : Nat
  parts : List String
  closed : List (String × List ρ)
  cur : Option (String × List ρ)
  widx : Nat

/-- Body of the `if cnt == limit` block: close the previous writer, generate
the next part path, create it (recording the path in `parts` on success), and
in row format write the header as the part's first record.  `Except.error`
means the Go code executed `break`, carrying the state and the loop's view of
the function-level `err`. -/
def splitRotate {σ ρ : Type} (shadowed : Bool) (limit : Int) (partFn : Nat → String)
    (createErr : String → Option GoErr) (writeErr : Nat → Option GoErr) (header : Option ρ)
    (st : SplitSt σ ρ) : Except (SplitSt σ ρ × Option GoErr) (SplitSt σ ρ) :=
  if st.cnt = limit then
    let st2 : SplitSt σ ρ := { st with closed := st.closed ++ st.cur.toList, cur := none }
    let path := partFn st2.partNum
    match createErr path with
    | some e => Except.error (st2, if shadowed then none else some e)
    | none =>
        let st3 : SplitSt σ ρ := { st2 with cur := some (path, []), parts := st2.parts ++ [path] }
        match header with
        | none => Except.ok { st3 with cnt := 0, partNum := st3.partNum + 1 }
        | some h =>
            match writeErr st3.widx with
            | some e =>
                Except.error ({ st3 with widx := st3.widx + 1 },
                              if shadowed then none else some e)
            | none =>
                Except.ok { st3 with
                  cur := some (path, [h]), widx := st3.widx + 1,
                  cnt := 0, partNum := st3.partNum + 1 }
  else Except.ok st

/-- One record write (`writer.WriteRaw(raw)` / `writer.Write(row...)` /
`writer.Write(holder)`) followed by the loop increment `cnt++`. -/
def splitWrite {σ ρ : Type} (writeErr : Nat → Option GoErr) (r : ρ) (st : SplitSt σ ρ) :
    SplitSt σ ρ × Option GoErr :=
  match writeErr st.widx with
  | some e => ({ st with widx := st.widx + 1, cnt := st.cnt + 1 }, some e)
  | none => ({ st with
               cur := st.cur.map (fun f => (f.1, f.2 ++ [r])),
               widx := st.widx + 1, cnt := st.cnt + 1 }, none)

/-- The Split loop.  In the `shadowed` variants a record-write error leaves
the function-level `err` nil, so the loop condition still holds and the loop
simply continues with the next record; in the proto variant the error ends the
loop. -/
def splitLoopGo {σ ρ : Type} (shadowed : Bool) (step : σ → Except GoErr ρ × σ) (limit : Int)
    (partFn : Nat → String) (createErr : String → Option GoErr) (writeErr : Nat → Option GoErr)
    (header : Option ρ) : Nat → SplitSt σ ρ → SplitSt σ ρ × Option GoErr
  | 0, st => (st, none)
  | fuel + 1, st =>
      match step st.reader with
      | (Except.error e, r2) =>
          ({ st with reader := r2 }, if shadowed then none else some e)
      | (Except.ok rec, r2) =>
          match splitRotate shadowed limit partFn createErr writeErr header
              { st with reader := r2 } with
          | Except.error out => out
          | Except.ok st4 =>
              match splitWrite writeErr rec st4 with
              | (st5, some e) =>
                  if shadowed then
                    splitLoopGo shadowed step limit partFn createErr writeErr header fuel st5
                  else (st5, some e)
              | (st5, none) =>
                  splitLoopGo shadowed step limit partFn createErr writeErr header fuel st5

/-- Outcome of a Split call: returned part paths, returned error, and the
part files left on disk with the records written to each. -/
structure SplitResult (ρ : Type) : Type where
  parts : List String
  err : Option GoErr
  files : List (String × List ρ)
deriving DecidableEq

/-- Post-loop code shared by the Split functions: reset an `io.EOF` to nil,
close the open writer (its file stays on disk), and on a (still) non-nil error
remove every created part and return no parts. -/
def splitFinish {σ ρ : Type} (out : SplitSt σ ρ × Option GoErr) : SplitResult ρ :=
  let err1 := if out.2 = some GoErr.eof then none else out.2
  match err1 with
  | some e => { parts := [], err := some e, files := [] }
  | none => { parts := out.1.parts, err := none, files := out.1.closed ++ out.1.cur.toList }

def initSplitSt {σ ρ : Type} (reader : σ) (limit : Int) : SplitSt σ ρ :=
  { reader := reader, cnt := limit, partNum := 1, parts := [], closed := [],
    cur := none, widx := 0 }

/-- Model of `SplitJsonFile` over the input file's bytes (`OpenJsonFile` is
assumed to succeed: the input is given).  Because of the
`raw, err := reader.ReadRaw()` shadow the loop can never set the
function-level `err`, so the post-loop `io.EOF` reset and the part-cleanup
block are dead code: the function returns the parts created so far with a nil
error even when creating or writing a part failed.  Each file's on-disk bytes
are `jsonEncode` of its listed records (`WriteRaw` appends a newline). -/
def splitJsonFileGo (input : List Nat) (limit : Int) (partFn : Nat → String)
    (createErr : String → Option GoErr) (writeErr : Nat → Option GoErr) :
    SplitResult (List Nat) :=
  splitFinish (splitLoopGo true (fun s => jsonReadRaw s) limit partFn createErr writeErr none
    (input.length + 1) (initSplitSt ⟨input, none⟩ limit))

/-- One `Read` of a record-level reader: the next element of the list,
`io.EOF` when none remain. -/
def listStep {ρ : Type} : List ρ → Except GoErr ρ × List ρ
  | [] => (Except.error GoErr.eof, [])
  | r :: rest => (Except.ok r, rest)

/-- Model of `SplitCsvFile` at the record level (rows as parsed by the
delimited-text reader).  The header row is read before the loop — on an input
with no rows that `Read` fails and its raw error (`io.EOF`) is returned as-is
with no parts.  The loop is shadowed (`row, err := reader.Read()`), and the
header is written as the first record of every part. -/
def splitCsvFileGo {ρ : Type} (rows : List ρ) (limit : Int) (partFn : Nat → String)
    (createErr : String → Option GoErr) (writeErr : Nat → Option GoErr) : SplitResult ρ :=
  match rows with
  | [] => { parts := [], err := some GoErr.eof, files := [] }
  | header :: rest =>
      splitFinish (splitLoopGo true listStep limit partFn createErr writeErr (some header)
        (rest.length + 1) (initSplitSt rest limit))

/-- Model of `SplitProtoFile` over the input file's bytes: reads with `ReadTo`
(`um` abstracts `proto.Unmarshal` into the holder) and re-writes the holder
with `protobufWrite` (each file's on-disk bytes are `protoEncode marshal` of
its listed messages).  The loop assigns `err =` directly, so errors reach the
post-loop code: the `io.EOF` ending the input is reset to nil, and any other
error removes all created parts and is returned. -/
def splitProtoFileGo {α : Type} (um : List Nat → Except GoErr α) (input : List Nat)
    (limit : Int) (partFn : Nat → String) (createErr : String → Option GoErr)
    (writeErr : Nat → Option GoErr) : SplitResult α :=
  splitFinish (splitLoopGo false (protoReadTo um) limit partFn createErr writeErr none
    (input.length + 1) (initSplitSt input limit))

/-! ## Record File Service: Join (JoinCsvFiles, JoinJsonFiles, JoinProtoFiles)

`JoinJsonFiles` and `JoinCsvFiles` read inside the per-part loop with
`raw, err := reader.ReadRaw()` / `row, err := reader.Read()`, so the
`if err == io.EOF … if err != nil { return … }` after that loop inspects the
enclosing (nil) `err`: the error that ended the part is swallowed and the join
moves on to the next part.  `JoinProtoFiles` assigns `err =` directly and does
propagate it.  Open errors and record-write errors are checked on the
shadowed variable itself in all three and abort immediately. -/

/-- Inner per-part streaming loop of the Join functions.  `wr` is one output
write (`writer.WriteRaw` / `writer.Write`); its outcome is injected through
`writeErr` by write index. -/
def joinPartGo {σ ρ ω : Type} (shadowed : Bool) (step : σ → Except GoErr ρ × σ)
    (wr : ω → ρ → ω) (writeErr : Nat → Option GoErr) :
    Nat → σ → ω → Nat → ω × Nat × Option GoErr
  | 0, _, out, widx => (out, widx, none)
  | fuel + 1, s, out, widx =>
      match step s with
      | (Except.error e, _) =>
          (out, widx,
           if shadowed then none
           else if e = GoErr.eof then none else some (GoErr.errorf "join read file"))
      | (Except.ok r, s2) =>
          match writeErr widx with
          | some _ => (out, widx + 1, some (GoErr.errorf "can not write row to file"))
          | none => joinPartGo shadowed step wr writeErr fuel s2 (wr out r) (widx + 1)

/-- Outer loop of `JoinJsonFiles` / `JoinProtoFiles` over the part list (the
output-file create is assumed to succeed; `openErr` injects the outcome of
each `OpenJsonFile` / `OpenProtoFile`; `fuelOf` bounds the records a reader
can yield). -/
def joinFilesGo {σ ρ ω : Type} (shadowed : Bool) (step : σ → Except GoErr ρ × σ)
    (wr : ω → ρ → ω) (writeErr : Nat → Option GoErr) (openErr : Nat → Option GoErr)
    (fuelOf : σ → Nat) : List σ → Nat → Nat → ω → ω × Option GoErr
  | [], _, _, out => (out, none)
  | p :: rest, i, widx, out =>
      match openErr i with
      | some _ => (out, some (GoErr.errorf "can not open file"))
      | none =>
          match joinPartGo shadowed step wr writeErr (fuelOf p) p out widx with
          | (out2, _, some e) => (out2, some e)
          | (out2, widx2, none) =>
              joinFilesGo shadowed step wr writeErr openErr fuelOf rest (i + 1) widx2 out2

/-- Model of `JoinJsonFiles` over the byte contents of the parts; the output
is the byte stream written through `WriteRaw` (each record followed by a
newline). -/
def joinJsonFilesGo (parts : List (List Nat)) (writeErr : Nat → Option GoErr)
    (openErr : Nat → Option GoErr) : List Nat × Option GoErr :=
  joinFilesGo true (fun s => jsonReadRaw s) (fun out r => out ++ r ++ [10]) writeErr openErr
    (fun s => s.buf.length + 1) (parts.map (fun b => (⟨b, none⟩ : JsonReaderSt))) 0 0 []

/-- Reader yielding a scripted sequence of read outcomes, modelling a part
whose underlying stream fails mid-read with a non-EOF error (e.g. a corrupt
gzip stream below `ReadRaw`). -/
def scriptStep {ρ : Type} : List (Except GoErr ρ) → Except GoErr ρ × List (Except GoErr ρ)
  | [] => (Except.error GoErr.eof, [])
  | r :: rest => (r, rest)

/-- Model of `JoinJsonFiles` over scripted reader outcomes per part. -/
def joinJsonFilesScripted (parts : List (List (Except GoErr (List Nat))))
    (writeErr : Nat → Option GoErr) (openErr : Nat → Option GoErr) :
    List Nat × Option GoErr :=
  joinFilesGo true scriptStep (fun out r => out ++ r ++ [10]) writeErr openErr
    (fun s => s.length + 1) parts 0 0 []

/-- Model of `JoinProtoFiles` over scripted reader outcomes per part
(`shadowed := false`: the proto join assigns `err =` directly). -/
def joinProtoFilesScripted {α : Type} (marshal : α → List Nat)
    (parts : List (List (Except GoErr α))) (writeErr : Nat → Option GoErr)
    (openErr : Nat → Option GoErr) : List Nat × Option GoErr :=
  joinFilesGo false scriptStep
    (fun out m => out ++ be32enc (marshal m).length ++ marshal m) writeErr openErr
    (fun s => s.length + 1) parts 0 0 []

/-- Model of `JoinProtoFiles` over the byte contents of the parts. -/
def joinProtoFilesGo {α : Type} (um : List Nat → Except GoErr α) (marshal : α → List Nat)
    (parts : List (List Nat)) (writeErr : Nat → Option GoErr)
    (openErr : Nat → Option GoErr) : List Nat × Option GoErr :=
  joinFilesGo false (protoReadTo um)
    (fun out m => out ++ be32enc (marshal m).length ++ marshal m) writeErr openErr
    (fun s => s.length + 1) parts 0 0 []

/-- Model of `JoinCsvFiles` at the record level: each part is its row list.
Each part's header row is read first (a failure there aborts with an error);
only part 0's header is written to the output.  The row-streaming loop has the
same shadow as the json join. -/
def joinCsvFilesGo {ρ : Type} (writeErr : Nat → Option GoErr) (openErr : Nat → Option GoErr) :
    List (List ρ) → Nat → Nat → List ρ → List ρ × Option GoErr
  | [], _, _, out => (out, none)
  | p :: rest, i, widx, out =>
      match openErr i with
      | some _ => (out, some (GoErr.errorf "can not open file"))
      | none =>
          match listStep p with
          | (Except.error _, _) => (out, some (GoErr.errorf "can not read header in file"))
          | (Except.ok header, prows) =>
              match (if i = 0 then writeErr widx else none) with
              | some _ => (out, some (GoErr.errorf "can not write header to file"))
              | none =>
                  let widx1 := if i = 0 then widx + 1 else widx
                  let out1 := if i = 0 then out ++ [header] else out
                  match joinPartGo true listStep (fun o r => o ++ [r]) writeErr
                      (prows.length + 1) prows out1 widx1 with
                  | (out2, _, some e) => (out2, some e)
                  | (out2, widx2, none) => joinCsvFilesGo writeErr openErr rest (i + 1) widx2 out2

/-! ## Chunking vocabulary for the Split/Join specifications -/

/-- Consecutive chunks of at most `L` records (the first record of a chunk is
the one whose read saw `cnt == limit`). -/
def chunksOf {ρ : Type} (L : Nat) : List ρ → List (List ρ)
  | [] => []
  | r :: rest => (r :: rest.take (L - 1)) :: chunksOf L (rest.drop (L - 1))
termination_by l => l.length
decreasing_by simp; omega

def flat {ρ : Type} : List (List ρ) → List ρ
  | [] => []
  | c :: cs => c ++ flat cs

/-- Expected part files for a chunk list: chunk `i` (0-based) at the path
generated for index `n + i`, its records prefixed by the row-format header
when present. -/
def partFiles {ρ : Type} (partFn : Nat → String) (hdr : List ρ) :
    Nat → List (List ρ) → List (String × List ρ)
  | _, [] => []
  | n, c :: cs => (partFn n, hdr ++ c) :: partFiles partFn hdr (n + 1) cs

/-! ## Theorems about the codec readers -/

theorem readBytesNL_cons_ne {b : Nat} (hb : b ≠ 10) (rest : List Nat) :
    readBytesNL (b :: rest)
      = (b :: (readBytesNL rest).1, (readBytesNL rest).2.1, (readBytesNL rest).2.2) := by
  simp [readBytesNL, hb]

theorem readBytesNL_nl_notin {r rest : List Nat} (h : 10 ∉ r) :
    readBytesNL (r ++ 10 :: rest) = (r ++ [10], rest, none) := by
  induction r with
  | nil => simp [readBytesNL]
  | cons b bs ih =>
      have hb : b ≠ 10 := fun hb => h (hb ▸ List.mem_cons_self b bs)
      have hbs : 10 ∉ bs := fun hm => h (List.mem_cons_of_mem b hm)
      rw [List.cons_append, readBytesNL_cons_ne hb, ih hbs]
      simp

theorem readBytesNL_no_nl {r : List Nat} (h : 10 ∉ r) (hne : r ≠ []) :
    readBytesNL r = (r, [], some GoErr.eof) := by
  induction r with
  | nil => exact absurd rfl hne
  | cons b bs ih =>
      have hb : b ≠ 10 := fun hb => h (hb ▸ List.mem_cons_self b bs)
      have hbs : 10 ∉ bs := fun hm => h (List.mem_cons_of_mem b hm)
      rw [readBytesNL_cons_ne hb]
      cases hbsn : bs with
      | nil => simp [readBytesNL]
      | cons c cs =>
          rw [← hbsn, ih hbs (by simp [hbsn])]

theorem readBytesNL_fst_ne_nil {l : List Nat} (h : l ≠ []) : (readBytesNL l).1 ≠ [] := by
  cases l with
  | nil => exact absurd rfl h
  | cons b bs =>
      by_cases hb : b = 10
      · subst hb; simp [readBytesNL]
      · rw [readBytesNL_cons_ne hb]; simp

theorem readBytesNL_err_cases (l : List Nat) :
    (readBytesNL l).2.2 = none ∨ (readBytesNL l).2.2 = some GoErr.eof := by
  induction l with
  | nil => right; rfl
  | cons b bs ih =>
      by_cases hb : b = 10
      · subst hb; left; simp [readBytesNL]
      · rw [readBytesNL_cons_ne hb]; exact ih

theorem jsonReadRaw_encode_cons {r : List Nat} (h10 : 10 ∉ r) (rs : List (List Nat)) :
    jsonReadRaw ⟨jsonEncode (r :: rs), none⟩ = (Except.ok r, ⟨jsonEncode rs, none⟩) := by
  show jsonReadRaw ⟨r ++ 10 :: jsonEncode rs, none⟩ = _
  unfold jsonReadRaw
  rw [readBytesNL_nl_notin h10]
  simp

theorem jsonReadRaw_encode_nil :
    jsonReadRaw ⟨jsonEncode [], none⟩ = (Except.error GoErr.eof, ⟨[], none⟩) := rfl

theorem jsonReadRaw_ne_nil_ok {buf : List Nat} (h : buf ≠ []) :
    ∃ v s2, jsonReadRaw ⟨buf, none⟩ = (Except.ok v, s2) := by
  have h1 := readBytesNL_fst_ne_nil h
  have h2 := readBytesNL_err_cases buf
  unfold jsonReadRaw
  rcases hE : readBytesNL buf with ⟨bin, rem, err⟩
  rw [hE] at h1 h2
  simp only at h1 h2
  have hlen : bin.length > 0 := List.length_pos.mpr h1
  rcases h2 with h2 | h2 <;> subst h2 <;> simp [hlen]

/-- Claim C8: for the line-delimited object codec, a final line with content
but no trailing newline byte is returned once as a record (`ReadRaw` returns
it as-is; `Read` feeds it to the unmarshaler), and the immediately following
read call reports end-of-stream. -/
theorem claim8_last_line_no_newline {α : Type} (um : List Nat → Except GoErr α)
    (c : List Nat) (hne : c ≠ []) (h10 : 10 ∉ c) :
    jsonReadRaw ⟨c, none⟩ = (Except.ok c, ⟨[], some GoErr.eof⟩) ∧
    jsonReadRaw ⟨[], some GoErr.eof⟩ = (Except.error GoErr.eof, ⟨[], some GoErr.eof⟩) ∧
    jsonRead um ⟨c, none⟩ = (um c, ⟨[], some GoErr.eof⟩) ∧
    jsonRead um ⟨[], some GoErr.eof⟩ = (Except.error GoErr.eof, ⟨[], some GoErr.eof⟩) := by
  have hlen : c.length > 0 := List.length_pos.mpr hne
  refine ⟨?_, rfl, ?_, rfl⟩
  · unfold jsonReadRaw
    rw [readBytesNL_no_nl h10 hne]
    simp [hlen]
  · unfold jsonRead
    rw [readBytesNL_no_nl h10 hne]
    simp [hlen]

theorem claim8_witness :
    (([65] : List Nat) ≠ [] ∧ (10 : Nat) ∉ ([65] : List Nat)) ∧
    (jsonReadRaw ⟨[65], none⟩ = (Except.ok [65], ⟨[], some GoErr.eof⟩) ∧
     jsonReadRaw ⟨[], some GoErr.eof⟩ = (Except.error GoErr.eof, ⟨[], some GoErr.eof⟩) ∧
     jsonRead (fun b => Except.ok b) ⟨[65], none⟩ = (Except.ok [65], ⟨[], some GoErr.eof⟩) ∧
     jsonRead (fun b => Except.ok b) ⟨[], some GoErr.eof⟩
       = (Except.error GoErr.eof, ⟨[], some GoErr.eof⟩)) :=
  ⟨⟨by decide, by decide⟩,
   claim8_last_line_no_newline (fun b => Except.ok b) [65] (by decide) (by decide)⟩

theorem readFull_eof {n : Nat} {s t : List Nat}
    (h : readFull n s = (Except.error GoErr.eof, t)) : s = [] ∧ t = [] := by
  unfold readFull at h
  split at h
  · simp at h
  · split at h
    · rename_i h0
      have hs : s = [] := List.length_eq_zero.mp h0
      simp at h
      exact ⟨hs, h ▸ hs⟩
    · simp at h

theorem protoReadTo_nil {α : Type} (um : List Nat → Except GoErr α) :
    protoReadTo um [] = (Except.error GoErr.eof, []) := rfl

/-- Claim C6: once a reader has signalled end-of-stream, every subsequent read
call on it signals end-of-stream again and leaves the state fixed — for the
line-delimited `ReadRaw` and `Read` (including the recorded-`lastErr` special
case after an unterminated final line) and for the length-prefixed `ReadTo`.
The unmarshaler hypothesis states that `Unmarshal` never returns `io.EOF`
itself. -/
theorem claim6_eof_idempotent :
    (∀ s s', jsonReadRaw s = (Except.error GoErr.eof, s') →
        jsonReadRaw s' = (Except.error GoErr.eof, s')) ∧
    (∀ (α : Type) (um : List Nat → Except GoErr α),
        (∀ b, um b ≠ Except.error GoErr.eof) →
        ∀ s s', jsonRead um s = (Except.error GoErr.eof, s') →
        jsonRead um s' = (Except.error GoErr.eof, s')) ∧
    (∀ (α : Type) (um : List Nat → Except GoErr α),
        (∀ b, um b ≠ Except.error GoErr.eof) →
        ∀ s s', protoReadTo um s = (Except.error GoErr.eof, s') →
        protoReadTo um s' = (Except.error GoErr.eof, s')) := by
  refine ⟨?_, ?_, ?_⟩
  · rintro ⟨buf, lastErr⟩ s' h
    cases lastErr with
    | some e =>
        simp [jsonReadRaw] at h
        obtain ⟨he, hs⟩ := h
        subst he
        rw [← hs]
        simp [jsonReadRaw]
    | none =>
        cases hb : buf with
        | nil =>
            subst hb
            have hs : (⟨[], none⟩ : JsonReaderSt) = s' := congrArg Prod.snd h
            rw [← hs]
            rfl
        | cons b bs =>
            subst hb
            obtain ⟨v, s2, hv⟩ := @jsonReadRaw_ne_nil_ok (b :: bs) (by simp)
            rw [hv] at h
            simp at h
  · rintro α um hum ⟨buf, lastErr⟩ s' h
    cases lastErr with
    | some e =>
        simp [jsonRead] at h
        obtain ⟨he, hs⟩ := h
        subst he
        rw [← hs]
        simp [jsonRead]
    | none =>
        cases hb : buf with
        | nil =>
            subst hb
            simp [jsonRead, readBytesNL] at h
            rw [← h]
            rfl
        | cons b bs =>
            subst hb
            exfalso
            have h1 := readBytesNL_fst_ne_nil (l := b :: bs) (by simp)
            have h2 := readBytesNL_err_cases (b :: bs)
            unfold jsonRead at h
            rcases hE : readBytesNL (b :: bs) with ⟨bin, rem, err⟩
            rw [hE] at h h1 h2
            simp only at h1 h2
            have hlen : bin.length > 0 := List.length_pos.mpr h1
            rcases h2 with h2 | h2 <;> subst h2 <;> simp [hlen] at h
            · exact hum bin (by rw [h.1])
            · exact hum bin (by rw [h.1])
  · intro α um hum s s' h
    unfold protoReadTo at h
    rcases hE : readFull 4 s with ⟨e1, s1⟩
    rw [hE] at h
    cases e1 with
    | error e =>
        simp at h
        obtain ⟨he, hs⟩ := h
        subst he
        obtain ⟨-, ht⟩ := readFull_eof hE
        rw [← hs, ht]
        rfl
    | ok lenBuf =>
        have h : (match readFull (be32 lenBuf) s1 with
            | (Except.error e, s2) => ((Except.error e : Except GoErr α), s2)
            | (Except.ok block, s2) => (um block, s2)) = (Except.error GoErr.eof, s') := h
        rcases hE2 : readFull (be32 lenBuf) s1 with ⟨e2, s2⟩
        rw [hE2] at h
        cases e2 with
        | error e =>
            simp at h
            obtain ⟨he, hs⟩ := h
            subst he
            obtain ⟨-, ht⟩ := readFull_eof hE2
            rw [← hs, ht]
            rfl
        | ok block =>
            exfalso
            simp at h
            exact hum block (by rw [h.1])

theorem claim6_witness :
    (jsonReadRaw ⟨[], none⟩ = (Except.error GoErr.eof, ⟨[], none⟩) ∧
      jsonReadRaw ⟨[], none⟩ = (Except.error GoErr.eof, ⟨[], none⟩)) ∧
    ((∀ b, (fun _ : List Nat => Except.error (GoErr.errorf "decode") : List Nat → Except GoErr Nat) b
        ≠ Except.error GoErr.eof) ∧
      jsonRead (fun _ : List Nat => Except.error (GoErr.errorf "decode") : List Nat → Except GoErr Nat)
        ⟨[], none⟩ = (Except.error GoErr.eof, ⟨[], none⟩)) ∧
    (protoReadTo (fun b : List Nat => Except.ok b) [] = (Except.error GoErr.eof, []) ∧
      protoReadTo (fun b : List Nat => Except.ok b) [] = (Except.error GoErr.eof, [])) := by
  refine ⟨⟨rfl, ?_⟩, ⟨fun b => by simp, rfl⟩, rfl, ?_⟩
  · exact claim6_eof_idempotent.1 ⟨[], none⟩ ⟨[], none⟩ rfl
  · exact claim6_eof_idempotent.2.2 (List Nat) (fun b => Except.ok b) (fun b => by simp) [] [] rfl

theorem readFull_ok {n : Nat} {s : List Nat} (h : n ≤ s.length) :
    readFull n s = (Except.ok (s.take n), s.drop n) := by
  unfold readFull; rw [if_pos h]

theorem readFull_eof_eval {n : Nat} {s : List Nat} (hn : ¬ n ≤ s.length)
    (h : s.length = 0) : readFull n s = (Except.error GoErr.eof, s) := by
  unfold readFull; rw [if_neg hn, if_pos h]

theorem readFull_short {n : Nat} {s : List Nat} (hn : ¬ n ≤ s.length)
    (h : ¬ s.length = 0) : readFull n s = (Except.error GoErr.unexpectedEof, []) := by
  unfold readFull; rw [if_neg hn, if_neg h]

/-- Claim C7 counterexample: on the stream `[0,0,0,5]` — a complete 4-byte
prefix declaring 5 payload bytes, with zero payload bytes following — `ReadTo`
returns the end-of-stream sentinel `io.EOF` (from `io.ReadFull` reading zero
bytes), even though bytes were available at the start of the prefix read and
the record is truncated mid-payload; the claim says such truncation is always
an IO error and never end-of-stream. -/
theorem claim7_counterexample :
    protoReadTo (fun b => Except.ok b) [0, 0, 0, 5] = (Except.error GoErr.eof, []) ∧
    ([0, 0, 0, 5] : List Nat) ≠ [] :=
  ⟨rfl, by decide⟩

/-- Claim C7 (amended): the length-prefixed reader reads exactly 4 bytes of
big-endian length prefix and then exactly that many payload bytes; it reports
end-of-stream when zero bytes are available at the start of a prefix read and
also when, after a complete prefix declaring a positive length, zero payload
bytes are available; any other truncation (mid-prefix, or mid-payload after at
least one payload byte) yields an IO error (`io.ErrUnexpectedEOF`), not
end-of-stream. -/
theorem claim7_prefix_framing {α : Type} (um : List Nat → Except GoErr α) (s : List Nat) :
    (s = [] → protoReadTo um s = (Except.error GoErr.eof, [])) ∧
    (0 < s.length → s.length < 4 →
        protoReadTo um s = (Except.error GoErr.unexpectedEof, [])) ∧
    (0 < be32 (s.take 4) → s.length = 4 →
        protoReadTo um s = (Except.error GoErr.eof, [])) ∧
    (4 < s.length → s.length - 4 < be32 (s.take 4) →
        protoReadTo um s = (Except.error GoErr.unexpectedEof, [])) ∧
    (4 + be32 (s.take 4) ≤ s.length →
        protoReadTo um s
          = (um ((s.drop 4).take (be32 (s.take 4))), s.drop (4 + be32 (s.take 4)))) := by
  refine ⟨?_, ?_, ?_, ?_, ?_⟩
  · intro h; subst h; rfl
  · intro h1 h2
    unfold protoReadTo
    rw [readFull_short (by omega) (by omega)]
  · intro hpos hlen
    have h1 : readFull 4 s = (Except.ok (s.take 4), s.drop 4) := readFull_ok (by omega)
    have hd : (s.drop 4).length = 0 := by rw [List.length_drop]; omega
    have hdnil : s.drop 4 = [] := List.eq_nil_of_length_eq_zero hd
    have h2 : readFull (be32 (s.take 4)) (s.drop 4) = (Except.error GoErr.eof, s.drop 4) :=
      readFull_eof_eval (by omega) hd
    unfold protoReadTo
    rw [h1]
    show (match readFull (be32 (s.take 4)) (s.drop 4) with
        | (Except.error e, s2) => ((Except.error e : Except GoErr α), s2)
        | (Except.ok block, s2) => (um block, s2)) = _
    rw [h2, hdnil]
  · intro h1 h2
    have hr1 : readFull 4 s = (Except.ok (s.take 4), s.drop 4) := readFull_ok (by omega)
    have hd : (s.drop 4).length = s.length - 4 := List.length_drop 4 s
    have hr2 : readFull (be32 (s.take 4)) (s.drop 4)
        = (Except.error GoErr.unexpectedEof, []) := readFull_short (by omega) (by omega)
    unfold protoReadTo
    rw [hr1]
    show (match readFull (be32 (s.take 4)) (s.drop 4) with
        | (Except.error e, s2) => ((Except.error e : Except GoErr α), s2)
        | (Except.ok block, s2) => (um block, s2)) = _
    rw [hr2]
  · intro h5
    have hd : (s.drop 4).length = s.length - 4 := List.length_drop 4 s
    have hr1 : readFull 4 s = (Except.ok (s.take 4), s.drop 4) := readFull_ok (by omega)
    have hr2 : readFull (be32 (s.take 4)) (s.drop 4)
        = (Except.ok ((s.drop 4).take (be32 (s.take 4))),
           (s.drop 4).drop (be32 (s.take 4))) := readFull_ok (by omega)
    unfold protoReadTo
    rw [hr1]
    show (match readFull (be32 (s.take 4)) (s.drop 4) with
        | (Except.error e, s2) => ((Except.error e : Except GoErr α), s2)
        | (Except.ok block, s2) => (um block, s2)) = _
    rw [hr2]
    show (um ((s.drop 4).take (be32 (s.take 4))), (s.drop 4).drop (be32 (s.take 4))) = _
    rw [List.drop_drop, Nat.add_comm]

theorem claim7_witness :
    (4 + be32 (([0, 0, 0, 1, 42] : List Nat).take 4) ≤ ([0, 0, 0, 1, 42] : List Nat).length) ∧
    protoReadTo (fun b => Except.ok b) [0, 0, 0, 1, 42]
      = (Except.ok [42],
         ([0, 0, 0, 1, 42] : List Nat).drop (4 + be32 (([0, 0, 0, 1, 42] : List Nat).take 4))) := by
  refine ⟨by decide, ?_⟩
  exact (claim7_prefix_framing (fun b : List Nat => Except.ok b) [0, 0, 0, 1, 42]).2.2.2.2 (by decide)

theorem zipValues_pair (A B : String → String) (vs : List String) :
    zipValues [A, B] vs = vs.map (fun v => B (A v)) := by
  simp [zipValues]

/-- Claim C9: with row-format transforms `[A, B]` configured, every field
value stored on write and returned on read equals `B (A rawValue)`; writing
the row `(" 123 ", "", " ", "null", "NaN")` through `[trim, pandasFriendly]`
produces exactly the encoded line `123,#,#,#,#`, and reading it back through
`[trim, removeHash]` yields `("123", "", "", "", "")`. -/
theorem claim9_transform_composition :
    (∀ (A B : String → String) (vs : List String),
        csvWriteRowGo [A, B] vs = csvEncodeRow (vs.map (fun v => B (A v)))) ∧
    (∀ (A B : String → String) (cs : List Char) (fields : List String) (rest : List Char),
        csvParseRecord cs = some (fields, rest) →
        csvReadGo [A, B] cs = (Except.ok (fields.map (fun v => B (A v))), rest)) ∧
    csvWriteRowGo [trimSpace, PandasFriendly] [" 123 ", "", " ", "null", "NaN"]
      = "123,#,#,#,#\n" ∧
    csvReadGo [trimSpace, RemoveHash] ("123,#,#,#,#\n".toList)
      = (Except.ok ["123", "", "", "", ""], []) := by
  refine ⟨?_, ?_, ?_, ?_⟩
  · intro A B vs
    show csvEncodeRow (zipValues [A, B] vs) = _
    rw [zipValues_pair]
  · intro A B cs fields rest h
    unfold csvReadGo
    rw [h]
    show (Except.ok (zipValues [A, B] fields), rest) = _
    rw [zipValues_pair]
  · rfl
  · rfl

theorem claim9_witness :
    (csvParseRecord ("a,b\n".toList) = some (["a", "b"], []) ∧
      csvWriteRowGo [trimSpace, PandasFriendly] ["a", "b"]
        = csvEncodeRow (["a", "b"].map (fun v => PandasFriendly (trimSpace v))) ∧
      csvReadGo [trimSpace, PandasFriendly] ("a,b\n".toList)
        = (Except.ok (["a", "b"].map (fun v => PandasFriendly (trimSpace v))), [])) :=
  ⟨rfl,
   claim9_transform_composition.1 trimSpace PandasFriendly ["a", "b"],
   claim9_transform_composition.2.1 trimSpace PandasFriendly ("a,b\n".toList)
     ["a", "b"] [] rfl⟩

/-- Claim C4 counterexample: with a failing innermost buffer flush and a
succeeding file-descriptor close, `jsonFileWriter.Close` returns nil, not the
first error encountered among the layers — so "returns the first error
encountered" is false. -/
theorem claim4_counterexample :
    (jsonFileWriterClose true ⟨some (GoErr.errorf "bw flush"), none, none, none, none⟩).2
        = none ∧
    firstCloseErr true ⟨some (GoErr.errorf "bw flush"), none, none, none, none⟩
        = some (GoErr.errorf "bw flush") :=
  ⟨rfl, rfl⟩

/-- Claim C4 (amended): `Close` tears the layers down in reverse order of
construction (innermost codec buffer flushed, then compressor flushed and
closed, then raw descriptor closed) and attempts every layer's teardown
unconditionally, but it returns only the outermost teardown's error: file
writers return exactly the `fd.Close()` error (inner flush and gzip close
errors are discarded), and stream writers return the `gzw.Close()` error when
gzip is present and nil otherwise. -/
theorem claim4_close_teardown (hasGz : Bool) (env : CloseEnv) :
    (jsonFileWriterClose hasGz env).1 = (buildOrder hasGz).reverse ∧
    (jsonFileWriterClose hasGz env).2 = env.fdCloseErr ∧
    (csvFileWriterClose hasGz env).2 = env.fdCloseErr ∧
    (jsonStreamWriterClose hasGz env).2 = (if hasGz then env.gzwCloseErr else none) := by
  cases hasGz <;> exact ⟨rfl, rfl, rfl, rfl⟩

/-- Claim C1 (code bug shown): splitting three one-record lines with limit 1
when creating part 2 fails.  Because the loop's `err` is a fresh shadowed
variable, the function-level `err` stays nil: `SplitJsonFile` returns the
already-created part list `["part1"]` with a nil error, and part 1 stays on
disk — the all-or-nothing cleanup is dead code.  (`SplitProtoFile`, which
assigns `err =` directly, removes the part and returns the create error on
the same input.) -/
theorem claim1_split_create_error_not_cleaned :
    splitJsonFileGo (jsonEncode [[65], [66], [67]]) 1
        (fun n => "part" ++ Nat.repr n)
        (fun p => if p = "part2" then some (GoErr.errorf "file create error") else none)
        (fun _ => none)
      = { parts := ["part1"], err := none, files := [("part1", [[65]])] } ∧
    splitProtoFileGo (fun b => Except.ok b) (protoEncode (fun m => m) [[65], [66], [67]]) 1
        (fun n => "part" ++ Nat.repr n)
        (fun p => if p = "part2" then some (GoErr.errorf "file create error") else none)
        (fun _ => none)
      = { parts := [], err := some (GoErr.errorf "file create error"), files := [] } :=
  ⟨rfl, rfl⟩

/-- Claim C2 (code bug shown): joining two parts where part 0's reader fails
with a non-EOF error after its first record.  In `JoinJsonFiles` the inner
loop's shadowed `err` makes the post-loop `io.EOF` check inspect an always-nil
variable, so the error is silently swallowed and the join continues with
part 1 and returns nil.  `JoinProtoFiles` (direct `err =` assignment) aborts
with its "join read file" error on the same script. -/
theorem claim2_join_swallows_read_error :
    joinJsonFilesScripted
        [[Except.ok [65], Except.error (GoErr.errorf "gzip: corrupt stream")],
         [Except.ok [66]]]
        (fun _ => none) (fun _ => none)
      = ([65, 10, 66, 10], none) ∧
    joinProtoFilesScripted (fun m => m)
        [[Except.ok [65], Except.error (GoErr.errorf "gzip: corrupt stream")],
         [Except.ok [66]]]
        (fun _ => none) (fun _ => none)
      = ([0, 0, 0, 1, 65], some (GoErr.errorf "join read file")) :=
  ⟨rfl, rfl⟩

/-- Claim C10: on a row-format input with no rows at all `SplitCsvFile`
returns no parts and the raw `io.EOF` sentinel as its error, while
`SplitJsonFile` and `SplitProtoFile` on a completely empty input return zero
parts and a nil error. -/
theorem claim10_empty_input (limit : Int) (partFn : Nat → String)
    (createErr : String → Option GoErr) (writeErr : Nat → Option GoErr) :
    splitCsvFileGo (ρ := List String) [] limit partFn createErr writeErr
      = { parts := [], err := some GoErr.eof, files := [] } ∧
    splitJsonFileGo [] limit partFn createErr writeErr
      = { parts := [], err := none, files := [] } ∧
    (∀ (α : Type) (um : List Nat → Except GoErr α),
      splitProtoFileGo um [] limit partFn createErr writeErr
        = { parts := [], err := none, files := [] }) := by
  exact ⟨rfl, rfl, fun α um => rfl⟩

theorem chunksOf_nil {ρ : Type} (L : Nat) : chunksOf L ([] : List ρ) = [] := by
  rw [chunksOf]

theorem chunksOf_cons {ρ : Type} (L : Nat) (r : ρ) (rest : List ρ) :
    chunksOf L (r :: rest)
      = (r :: rest.take (L - 1)) :: chunksOf L (rest.drop (L - 1)) := by
  rw [chunksOf]

theorem flat_chunksOf_aux {ρ : Type} (L : Nat) :
    ∀ (n : Nat) (rs : List ρ), rs.length ≤ n → flat (chunksOf L rs) = rs := by
  intro n
  induction n with
  | zero =>
      intro rs h
      have hrs : rs = [] := List.eq_nil_of_length_eq_zero (Nat.le_zero.mp h)
      subst hrs; rw [chunksOf_nil]; rfl
  | succ n ih =>
      intro rs h
      cases rs with
      | nil => rw [chunksOf_nil]; rfl
      | cons r rest =>
          rw [chunksOf_cons]
          show (r :: rest.take (L - 1)) ++ flat (chunksOf L (rest.drop (L - 1))) = r :: rest
          rw [ih (rest.drop (L - 1)) (by rw [List.length_drop]; simp at h; omega)]
          simp [List.take_append_drop]

theorem flat_chunksOf {ρ : Type} (L : Nat) (rs : List ρ) : flat (chunksOf L rs) = rs :=
  flat_chunksOf_aux L rs.length rs le_rfl

theorem chunksOf_length_le_aux {ρ : Type} (L : Nat) (hL : 1 ≤ L) :
    ∀ (n : Nat) (rs : List ρ), rs.length ≤ n → ∀ c ∈ chunksOf L rs, c.length ≤ L := by
  intro n
  induction n with
  | zero =>
      intro rs h c hc
      have hrs : rs = [] := List.eq_nil_of_length_eq_zero (Nat.le_zero.mp h)
      subst hrs; simp [chunksOf] at hc
  | succ n ih =>
      intro rs h c hc
      cases rs with
      | nil => simp [chunksOf] at hc
      | cons r rest =>
          rw [chunksOf_cons] at hc
          rcases List.mem_cons.mp hc with hc | hc
          · subst hc
            simp [List.length_take]
            omega
          · exact ih (rest.drop (L - 1))
              (by rw [List.length_drop]; simp at h; omega) c hc

theorem chunksOf_length_le {ρ : Type} (L : Nat) (hL : 1 ≤ L) (rs : List ρ) :
    ∀ c ∈ chunksOf L rs, c.length ≤ L :=
  chunksOf_length_le_aux L hL rs.length rs le_rfl

theorem partFiles_map_fst {ρ : Type} (partFn : Nat → String) (hdr : List ρ) :
    ∀ (cs : List (List ρ)) (n : Nat),
      (partFiles partFn hdr n cs).map Prod.fst
        = (List.range' n cs.length).map partFn := by
  intro cs
  induction cs with
  | nil => intro n; rfl
  | cons c cs ih =>
      intro n
      simp [partFiles, List.range'_succ, ih (n + 1)]

theorem splitWrite_noFail {σ ρ : Type} (r : ρ) (st : SplitSt σ ρ) :
    splitWrite (fun _ => none) r st
      = ({ st with
           cur := st.cur.map (fun f => (f.1, f.2 ++ [r])),
           widx := st.widx + 1, cnt := st.cnt + 1 }, none) := rfl

theorem splitRotate_noFail {σ ρ : Type} (shadowed : Bool) (L : Int) (partFn : Nat → String)
    (header : Option ρ) (st : SplitSt σ ρ) (h : st.cnt = L) :
    splitRotate shadowed L partFn (fun _ => none) (fun _ => none) header st
      = Except.ok { st with
          closed := st.closed ++ st.cur.toList,
          cur := some (partFn st.partNum, header.toList),
          parts := st.parts ++ [partFn st.partNum],
          cnt := 0, partNum := st.partNum + 1,
          widx := if header.isSome then st.widx + 1 else st.widx } := by
  cases header <;> simp [splitRotate, h]

theorem splitRotate_skip {σ ρ : Type} (shadowed : Bool) (L : Int) (partFn : Nat → String)
    (createErr : String → Option GoErr) (writeErr : Nat → Option GoErr) (header : Option ρ)
    (st : SplitSt σ ρ) (h : ¬ st.cnt = L) :
    splitRotate shadowed L partFn createErr writeErr header st = Except.ok st := by
  simp [splitRotate, h]

theorem splitLoopGo_succ {σ ρ : Type} (shadowed : Bool) (step : σ → Except GoErr ρ × σ)
    (limit : Int) (partFn : Nat → String) (createErr : String → Option GoErr)
    (writeErr : Nat → Option GoErr) (header : Option ρ) (fuel : Nat) (st : SplitSt σ ρ) :
    splitLoopGo shadowed step limit partFn createErr writeErr header (fuel + 1) st
      = match step st.reader with
        | (Except.error e, r2) =>
            ({ st with reader := r2 }, if shadowed then none else some e)
        | (Except.ok rec, r2) =>
            match splitRotate shadowed limit partFn createErr writeErr header
                { st with reader := r2 } with
            | Except.error out => out
            | Except.ok st4 =>
                match splitWrite writeErr rec st4 with
                | (st5, some e) =>
                    if shadowed then
                      splitLoopGo shadowed step limit partFn createErr writeErr header fuel st5
                    else (st5, some e)
                | (st5, none) =>
                    splitLoopGo shadowed step limit partFn createErr writeErr header fuel st5 := rfl


theorem splitLoopGo_step_err {σ ρ : Type} (shadowed : Bool) (step : σ → Except GoErr ρ × σ)
    (limit : Int) (partFn : Nat → String) (createErr : String → Option GoErr)
    (writeErr : Nat → Option GoErr) (header : Option ρ) (fuel : Nat)
    {st : SplitSt σ ρ} {e : GoErr} {s2 : σ}
    (hstep : step st.reader = (Except.error e, s2)) :
    splitLoopGo shadowed step limit partFn createErr writeErr header (fuel + 1) st
      = ({ st with reader := s2 }, if shadowed then none else some e) := by
  rw [splitLoopGo_succ, hstep]

theorem splitLoopGo_step_rotate {σ ρ : Type} (shadowed : Bool)
    (step : σ → Except GoErr ρ × σ) (L : Int) (partFn : Nat → String) (header : Option ρ)
    (fuel : Nat) {st : SplitSt σ ρ} {r : ρ} {s2 : σ}
    (hstep : step st.reader = (Except.ok r, s2)) (hcnt : st.cnt = L) :
    splitLoopGo shadowed step L partFn (fun _ => none) (fun _ => none) header (fuel + 1) st
      = splitLoopGo shadowed step L partFn (fun _ => none) (fun _ => none) header fuel
          { st with
            reader := s2,
            closed := st.closed ++ st.cur.toList,
            cur := some (partFn st.partNum, header.toList ++ [r]),
            parts := st.parts ++ [partFn st.partNum],
            cnt := 0 + 1, partNum := st.partNum + 1,
            widx := (if header.isSome then st.widx + 1 else st.widx) + 1 } := by
  rw [splitLoopGo_succ, hstep]
  have hrot := splitRotate_noFail shadowed L partFn header
    ({ st with reader := s2 } : SplitSt σ ρ) (by simpa using hcnt)
  simp only [hrot, splitWrite_noFail, Option.map_some']

theorem splitLoopGo_step_mid {σ ρ : Type} (shadowed : Bool)
    (step : σ → Except GoErr ρ × σ) (L : Int) (partFn : Nat → String) (header : Option ρ)
    (fuel : Nat) {st : SplitSt σ ρ} {r : ρ} {s2 : σ}
    (hstep : step st.reader = (Except.ok r, s2)) (hcnt : ¬ st.cnt = L) :
    splitLoopGo shadowed step L partFn (fun _ => none) (fun _ => none) header (fuel + 1) st
      = splitLoopGo shadowed step L partFn (fun _ => none) (fun _ => none) header fuel
          { st with
            reader := s2,
            cur := st.cur.map (fun f => (f.1, f.2 ++ [r])),
            widx := st.widx + 1, cnt := st.cnt + 1 } := by
  rw [splitLoopGo_succ, hstep]
  have hrot := splitRotate_skip shadowed L partFn (fun _ => none) (fun _ => none) header
    ({ st with reader := s2 } : SplitSt σ ρ) (by simpa using hcnt)
  simp only [hrot, splitWrite_noFail]

/-- Behaviour of the Split loop on the no-failure path, for any reader whose
states represent a record list (`Rep`): starting mid-part, the remaining
records fill the current part up to its remaining capacity `L - cnt`, followed
by fresh parts of `L` records each (`chunksOf`), each fresh part at the path
generated for its 1-based index and prefixed by the row-format header when
present; the loop's final view of the function-level `err` is nil in the
shadowed variants and `io.EOF` in the proto variant. -/
theorem splitLoopGo_noFail_spec {σ ρ : Type} (shadowed : Bool)
    (step : σ → Except GoErr ρ × σ) (Rep : σ → List ρ → Prop)
    (hnil : ∀ s, Rep s [] → ∃ s2, step s = (Except.error GoErr.eof, s2))
    (hcons : ∀ s r rs, Rep s (r :: rs) → ∃ s2, step s = (Except.ok r, s2) ∧ Rep s2 rs)
    (L : Int) (hL : 1 ≤ L) (partFn : Nat → String) (header : Option ρ) :
    ∀ (rs : List ρ) (fuel : Nat) (st : SplitSt σ ρ),
      Rep st.reader rs → rs.length + 1 ≤ fuel →
      1 ≤ st.cnt → st.cnt ≤ L → (st.cur = none → st.cnt = L) →
      (splitLoopGo shadowed step L partFn (fun _ => none) (fun _ => none) header fuel st).2
          = (if shadowed then none else some GoErr.eof) ∧
      ((splitLoopGo shadowed step L partFn (fun _ => none) (fun _ => none) header fuel st).1.closed
        ++ (splitLoopGo shadowed step L partFn (fun _ => none) (fun _ => none) header fuel
              st).1.cur.toList
        = st.closed
          ++ (match st.cur with
              | none => []
              | some pc => [(pc.1, pc.2 ++ rs.take (L - st.cnt).toNat)])
          ++ partFiles partFn header.toList st.partNum
              (chunksOf L.toNat (rs.drop (L - st.cnt).toNat))) ∧
      (splitLoopGo shadowed step L partFn (fun _ => none) (fun _ => none) header fuel st).1.parts
        = st.parts
          ++ (partFiles partFn header.toList st.partNum
               (chunksOf L.toNat (rs.drop (L - st.cnt).toNat))).map Prod.fst := by
  intro rs
  induction rs with
  | nil =>
      intro fuel st hRep hfuel hc1 hcL hcur
      obtain ⟨s2, hstep⟩ := hnil _ hRep
      cases fuel with
      | zero => omega
      | succ f =>
          rw [splitLoopGo_step_err shadowed step L partFn _ _ header f hstep]
          refine ⟨rfl, ?_, ?_⟩
          · cases hcur2 : st.cur <;> simp [chunksOf_nil, partFiles]
          · simp [chunksOf_nil, partFiles]
  | cons r rest ih =>
      intro fuel st hRep hfuel hc1 hcL hcur
      obtain ⟨s2, hstep, hRep2⟩ := hcons _ _ _ hRep
      cases fuel with
      | zero => simp at hfuel
      | succ f =>
          by_cases hcnt : st.cnt = L
          · rw [splitLoopGo_step_rotate shadowed step L partFn header f hstep hcnt]
            obtain ⟨herr, hfiles, hparts⟩ :=
              ih f
                { st with
                  reader := s2,
                  closed := st.closed ++ st.cur.toList,
                  cur := some (partFn st.partNum, header.toList ++ [r]),
                  parts := st.parts ++ [partFn st.partNum],
                  cnt := 0 + 1, partNum := st.partNum + 1,
                  widx := (if header.isSome then st.widx + 1 else st.widx) + 1 }
                hRep2 (by simp at hfuel; omega) (by show (1 : Int) ≤ 0 + 1; omega)
                (by show (0 : Int) + 1 ≤ L; omega) (by simp)
            refine ⟨herr, hfiles.trans ?_, hparts.trans ?_⟩
            · have hk0 : ((L : Int) - st.cnt).toNat = 0 := by omega
              have hk5 : ((L : Int) - (0 + 1)).toNat = L.toNat - 1 := by omega
              simp only [hk0, hk5, List.take_zero, List.drop_zero, chunksOf_cons, partFiles]
              cases hcur2 : st.cur <;> simp
            · have hk0 : ((L : Int) - st.cnt).toNat = 0 := by omega
              have hk5 : ((L : Int) - (0 + 1)).toNat = L.toNat - 1 := by omega
              simp only [hk0, hk5, List.drop_zero, chunksOf_cons, partFiles]
              simp
          · rw [splitLoopGo_step_mid shadowed step L partFn header f hstep hcnt]
            cases hcur2 : st.cur with
            | none => exact absurd (hcur hcur2) hcnt
            | some pc =>
                simp only [Option.map_some']
                obtain ⟨herr, hfiles, hparts⟩ :=
                  ih f
                    { st with
                      reader := s2,
                      cur := some (pc.1, pc.2 ++ [r]),
                      widx := st.widx + 1, cnt := st.cnt + 1 }
                    hRep2 (by simp at hfuel; omega) (by show (1 : Int) ≤ st.cnt + 1; omega)
                    (by show st.cnt + (1 : Int) ≤ L; omega) (by simp)
                refine ⟨herr, hfiles.trans ?_, hparts.trans ?_⟩
                · have hk : ((L : Int) - (st.cnt + 1)).toNat = ((L : Int) - st.cnt).toNat - 1 := by
                    omega
                  obtain ⟨m, hm⟩ : ∃ m, ((L : Int) - st.cnt).toNat = m + 1 :=
                    ⟨((L : Int) - st.cnt).toNat - 1, by omega⟩
                  simp only [hk, hm, Nat.add_sub_cancel, List.take_succ_cons,
                    List.drop_succ_cons, hcur2]
                  simp [List.append_assoc]
                · have hk : ((L : Int) - (st.cnt + 1)).toNat = ((L : Int) - st.cnt).toNat - 1 := by
                    omega
                  obtain ⟨m, hm⟩ : ∃ m, ((L : Int) - st.cnt).toNat = m + 1 :=
                    ⟨((L : Int) - st.cnt).toNat - 1, by omega⟩
                  simp only [hk, hm, Nat.add_sub_cancel, List.drop_succ_cons]

theorem splitFinish_none {σ ρ : Type} {out : SplitSt σ ρ × Option GoErr} (h : out.2 = none) :
    splitFinish out
      = { parts := out.1.parts, err := none, files := out.1.closed ++ out.1.cur.toList } := by
  unfold splitFinish
  rw [h]
  rfl

theorem splitFinish_eof {σ ρ : Type} {out : SplitSt σ ρ × Option GoErr}
    (h : out.2 = some GoErr.eof) :
    splitFinish out
      = { parts := out.1.parts, err := none, files := out.1.closed ++ out.1.cur.toList } := by
  unfold splitFinish
  rw [h]
  rfl

theorem chunksOf_exact {ρ : Type} (L : Nat) (hL : 1 ≤ L) :
    ∀ (q : Nat) (rs : List ρ), rs.length = q * L →
      (chunksOf L rs).map List.length = List.replicate q L := by
  intro q
  induction q with
  | zero =>
      intro rs h
      have hrs : rs = [] := List.eq_nil_of_length_eq_zero (by simpa using h)
      subst hrs
      simp [chunksOf_nil]
  | succ q ih =>
      intro rs h
      rw [Nat.succ_mul] at h
      generalize hql : q * L = t at h
      cases rs with
      | nil => simp at h; omega
      | cons r rest =>
          rw [chunksOf_cons]
          simp only [List.map_cons, List.replicate_succ]
          congr 1
          · simp at h
            simp [List.length_take]
            omega
          · apply ih
            rw [List.length_drop, hql]
            simp at h
            omega

theorem chunksOf_partial {ρ : Type} (L : Nat) (hL : 1 ≤ L) :
    ∀ (q : Nat) (rs : List ρ) (rr : Nat), 1 ≤ rr → rr < L → rs.length = q * L + rr →
      (chunksOf L rs).map List.length = List.replicate q L ++ [rr] := by
  intro q
  induction q with
  | zero =>
      intro rs rr h1 h2 h
      simp at h
      cases rs with
      | nil => simp at h; omega
      | cons r rest =>
          rw [chunksOf_cons]
          have htake : rest.take (L - 1) = rest := by
            apply List.take_of_length_le
            simp at h
            omega
          have hdrop : rest.drop (L - 1) = [] := by
            apply List.drop_eq_nil_of_le
            simp at h
            omega
          rw [htake, hdrop, chunksOf_nil]
          simp at h ⊢
          omega
  | succ q ih =>
      intro rs rr h1 h2 h
      rw [Nat.succ_mul] at h
      generalize hql : q * L = t at h
      cases rs with
      | nil => simp at h; omega
      | cons r rest =>
          rw [chunksOf_cons]
          simp only [List.map_cons, List.replicate_succ, List.cons_append]
          congr 1
          · simp at h
            simp [List.length_take]
            omega
          · apply ih (rest.drop (L - 1)) rr h1 h2
            rw [List.length_drop, hql]
            simp at h
            omega

/-- Claim C5: `SplitCsvFile` consumes the header row first (not counted
against any chunk's limit) and partitions the data rows into consecutive,
non-overlapping chunks of at most `limit` records, writing chunk `i` — with
the header rewritten as its first record — to the path generated for index
`i` (first index 1); 100 rows with limit 10 give exactly 10 chunks of 10, 95
give 9 full chunks and one of 5, 5 give exactly one chunk of 5. -/
theorem claim5_split_partition {ρ : Type} (header : ρ) (rest : List ρ) (L : Int)
    (hL : 1 ≤ L) (partFn : Nat → String) :
    (splitCsvFileGo (header :: rest) L partFn (fun _ => none) (fun _ => none)).err = none ∧
    (splitCsvFileGo (header :: rest) L partFn (fun _ => none) (fun _ => none)).files
      = partFiles partFn [header] 1 (chunksOf L.toNat rest) ∧
    (splitCsvFileGo (header :: rest) L partFn (fun _ => none) (fun _ => none)).parts
      = (List.range' 1 (chunksOf L.toNat rest).length).map partFn ∧
    flat (chunksOf L.toNat rest) = rest ∧
    (∀ c ∈ chunksOf L.toNat rest, c.length ≤ L.toNat) ∧
    (rest.length = 100 → L = 10 →
        (chunksOf L.toNat rest).map List.length = List.replicate 10 10) ∧
    (rest.length = 95 → L = 10 →
        (chunksOf L.toNat rest).map List.length = List.replicate 9 10 ++ [5]) ∧
    (rest.length = 5 → L = 10 →
        (chunksOf L.toNat rest).map List.length = [5]) := by
  obtain ⟨herr, hfiles, hparts⟩ :=
    splitLoopGo_noFail_spec true listStep (fun s rs => s = rs)
      (fun s hs => ⟨[], by rw [hs]; rfl⟩)
      (fun s r rs hs => ⟨rs, by rw [hs]; rfl, rfl⟩)
      L hL partFn (some header) rest (rest.length + 1) (initSplitSt rest L) rfl le_rfl
      (show (1 : Int) ≤ (initSplitSt (σ := List ρ) (ρ := ρ) rest L).cnt from hL)
      (show (initSplitSt (σ := List ρ) (ρ := ρ) rest L).cnt ≤ L from le_rfl)
      (fun _ => rfl)
  have hout2 : (splitLoopGo true listStep L partFn (fun _ => none) (fun _ => none)
      (some header) (rest.length + 1) (initSplitSt rest L)).2 = none := herr.trans rfl
  have key : splitCsvFileGo (header :: rest) L partFn (fun _ => none) (fun _ => none)
      = { parts := (splitLoopGo true listStep L partFn (fun _ => none) (fun _ => none)
            (some header) (rest.length + 1) (initSplitSt rest L)).1.parts,
          err := none,
          files := (splitLoopGo true listStep L partFn (fun _ => none) (fun _ => none)
              (some header) (rest.length + 1) (initSplitSt rest L)).1.closed
            ++ (splitLoopGo true listStep L partFn (fun _ => none) (fun _ => none)
              (some header) (rest.length + 1) (initSplitSt rest L)).1.cur.toList } := by
    show splitFinish _ = _
    exact splitFinish_none hout2
  simp only [initSplitSt, sub_self, Int.toNat_zero, List.take_zero, List.drop_zero,
    List.nil_append, Option.toList, Option.toList_some] at hfiles hparts
  refine ⟨?_, ?_, ?_, flat_chunksOf _ _, chunksOf_length_le L.toNat (by omega) rest,
      ?_, ?_, ?_⟩
  · rw [key]
  · rw [key]
    exact hfiles
  · rw [key]
    rw [show ((partFiles partFn [header] 1 (chunksOf L.toNat rest)).map Prod.fst
          = (List.range' 1 (chunksOf L.toNat rest).length).map partFn)
        from partFiles_map_fst partFn [header] (chunksOf L.toNat rest) 1] at hparts
    exact hparts
  · intro h100 hL10
    subst hL10
    exact chunksOf_exact (Int.toNat 10) (by omega) 10 rest (by omega)
  · intro h95 hL10
    subst hL10
    exact chunksOf_partial (Int.toNat 10) (by omega) 9 rest 5 (by omega) (by omega) (by omega)
  · intro h5 hL10
    subst hL10
    exact chunksOf_partial (Int.toNat 10) (by omega) 0 rest 5 (by omega) (by omega) (by omega)

theorem claim5_witness :
    ((1 : Int) ≤ 10) ∧
    (splitCsvFileGo ((0 : Nat) :: List.range 5) 10 Nat.repr
        (fun _ => none) (fun _ => none)).files
      = partFiles Nat.repr [0] 1 (chunksOf (Int.toNat 10) (List.range 5)) :=
  ⟨by decide, (claim5_split_partition 0 (List.range 5) 10 (by decide) Nat.repr).2.1⟩

theorem joinPartGo_succ {σ ρ ω : Type} (shadowed : Bool) (step : σ → Except GoErr ρ × σ)
    (wr : ω → ρ → ω) (writeErr : Nat → Option GoErr) (fuel : Nat) (s : σ) (out : ω)
    (widx : Nat) :
    joinPartGo shadowed step wr writeErr (fuel + 1) s out widx
      = match step s with
        | (Except.error e, _) =>
            (out, widx,
             if shadowed then none
             else if e = GoErr.eof then none else some (GoErr.errorf "join read file"))
        | (Except.ok r, s2) =>
            match writeErr widx with
            | some _ => (out, widx + 1, some (GoErr.errorf "can not write row to file"))
            | none => joinPartGo shadowed step wr writeErr fuel s2 (wr out r) (widx + 1) := rfl

theorem joinPartGo_noFail {σ ρ ω : Type} (shadowed : Bool)
    (step : σ → Except GoErr ρ × σ) (Rep : σ → List ρ → Prop)
    (hnil : ∀ s, Rep s [] → ∃ s2, step s = (Except.error GoErr.eof, s2))
    (hcons : ∀ s r rs, Rep s (r :: rs) → ∃ s2, step s = (Except.ok r, s2) ∧ Rep s2 rs)
    (wr : ω → ρ → ω) :
    ∀ (rs : List ρ) (fuel : Nat) (s : σ) (out : ω) (widx : Nat),
      Rep s rs → rs.length + 1 ≤ fuel →
      joinPartGo shadowed step wr (fun _ => none) fuel s out widx
        = (rs.foldl wr out, widx + rs.length, none) := by
  intro rs
  induction rs with
  | nil =>
      intro fuel s out widx hRep hfuel
      obtain ⟨s2, hstep⟩ := hnil _ hRep
      cases fuel with
      | zero => omega
      | succ f =>
          rw [joinPartGo_succ]
          simp [hstep]
  | cons r rest ih =>
      intro fuel s out widx hRep hfuel
      obtain ⟨s2, hstep, hRep2⟩ := hcons _ _ _ hRep
      cases fuel with
      | zero => simp at hfuel
      | succ f =>
          rw [joinPartGo_succ]
          simp only [hstep]
          rw [ih f s2 (wr out r) (widx + 1) hRep2 (by simp at hfuel; omega)]
          simp
          omega

theorem joinFilesGo_cons {σ ρ ω : Type} (shadowed : Bool) (step : σ → Except GoErr ρ × σ)
    (wr : ω → ρ → ω) (writeErr : Nat → Option GoErr) (openErr : Nat → Option GoErr)
    (fuelOf : σ → Nat) (p : σ) (rest : List σ) (i widx : Nat) (out : ω) :
    joinFilesGo shadowed step wr writeErr openErr fuelOf (p :: rest) i widx out
      = match openErr i with
        | some _ => (out, some (GoErr.errorf "can not open file"))
        | none =>
            match joinPartGo shadowed step wr writeErr (fuelOf p) p out widx with
            | (out2, _, some e) => (out2, some e)
            | (out2, widx2, none) =>
                joinFilesGo shadowed step wr writeErr openErr fuelOf rest (i + 1) widx2 out2 :=
  rfl

theorem joinFilesGo_noFail {σ ρ ω : Type} (shadowed : Bool)
    (step : σ → Except GoErr ρ × σ) (Rep : σ → List ρ → Prop)
    (hnil : ∀ s, Rep s [] → ∃ s2, step s = (Except.error GoErr.eof, s2))
    (hcons : ∀ s r rs, Rep s (r :: rs) → ∃ s2, step s = (Except.ok r, s2) ∧ Rep s2 rs)
    (wr : ω → ρ → ω) (fuelOf : σ → Nat) :
    ∀ (ps : List σ) (css : List (List ρ)),
      List.Forall₂ (fun p cs => Rep p cs ∧ cs.length + 1 ≤ fuelOf p) ps css →
      ∀ (i widx : Nat) (out : ω),
      joinFilesGo shadowed step wr (fun _ => none) (fun _ => none) fuelOf ps i widx out
        = (css.foldl (fun o cs => cs.foldl wr o) out, none) := by
  intro ps css hall
  induction hall with
  | nil => intro i widx out; rfl
  | cons hpc hrest ih =>
      intro i widx out
      rename_i p cs ps2 css2
      rw [joinFilesGo_cons]
      rw [joinPartGo_noFail shadowed step Rep hnil hcons wr cs (fuelOf p) p out widx
            hpc.1 hpc.2]
      simp only []
      exact ih (i + 1) (widx + cs.length) (cs.foldl wr out)

theorem jsonEncode_append (a b : List (List Nat)) :
    jsonEncode (a ++ b) = jsonEncode a ++ jsonEncode b := by
  induction a with
  | nil => rfl
  | cons r rest ih => simp [jsonEncode, ih]

theorem protoEncode_append {α : Type} (marshal : α → List Nat) (a b : List α) :
    protoEncode marshal (a ++ b) = protoEncode marshal a ++ protoEncode marshal b := by
  induction a with
  | nil => rfl
  | cons m rest ih => simp [protoEncode, ih]

theorem flat_append {ρ : Type} (a b : List (List ρ)) : flat (a ++ b) = flat a ++ flat b := by
  induction a with
  | nil => rfl
  | cons c cs ih => simp [flat, ih]

theorem mem_flat {ρ : Type} {css : List (List ρ)} {x : ρ} :
    x ∈ flat css ↔ ∃ c ∈ css, x ∈ c := by
  induction css with
  | nil => simp [flat]
  | cons c cs ih => simp [flat, ih]

theorem mem_of_mem_chunksOf {ρ : Type} {L : Nat} {rs c : List ρ} {x : ρ}
    (hc : c ∈ chunksOf L rs) (hx : x ∈ c) : x ∈ rs := by
  rw [← flat_chunksOf L rs]
  exact mem_flat.mpr ⟨c, hc, hx⟩

theorem chunksOf_ne_nil {ρ : Type} (L : Nat) {rs : List ρ} (h : rs ≠ []) :
    chunksOf L rs ≠ [] := by
  cases rs with
  | nil => exact absurd rfl h
  | cons r rest => rw [chunksOf_cons]; simp

theorem jsonEncode_length (rs : List (List Nat)) : rs.length ≤ (jsonEncode rs).length := by
  induction rs with
  | nil => simp [jsonEncode]
  | cons r rest ih => simp [jsonEncode]; omega

theorem protoEncode_length {α : Type} (marshal : α → List Nat) (ms : List α) :
    ms.length ≤ (protoEncode marshal ms).length := by
  induction ms with
  | nil => simp [protoEncode]
  | cons m rest ih => simp [protoEncode, be32enc]; omega

theorem be32_be32enc (n : Nat) (h : n < 2 ^ 32) : be32 (be32enc n) = n := by
  show (n / 2 ^ 24 % 256) % 256 * 2 ^ 24 + (n / 2 ^ 16 % 256) % 256 * 2 ^ 16
      + (n / 2 ^ 8 % 256) % 256 * 2 ^ 8 + (n % 256) % 256 = n
  omega

theorem partFiles_map_snd {ρ : Type} (partFn : Nat → String) (hdr : List ρ) :
    ∀ (cs : List (List ρ)) (n : Nat),
      (partFiles partFn hdr n cs).map Prod.snd = cs.map (fun c => hdr ++ c) := by
  intro cs
  induction cs with
  | nil => intro n; rfl
  | cons c cs ih => intro n; simp [partFiles, ih (n + 1)]

theorem forallTwo_map_self {σ ρ : Type} (g : List ρ → σ) (P : σ → List ρ → Prop)
    (css : List (List ρ)) (h : ∀ c ∈ css, P (g c) c) :
    List.Forall₂ P (css.map g) css := by
  induction css with
  | nil => exact List.Forall₂.nil
  | cons c cs ih =>
      exact List.Forall₂.cons (h c (by simp)) (ih (fun d hd => h d (by simp [hd])))

theorem foldl_json_wr :
    ∀ (rs : List (List Nat)) (out : List Nat),
      rs.foldl (fun o r => o ++ r ++ [10]) out = out ++ jsonEncode rs := by
  intro rs
  induction rs with
  | nil => intro out; simp [jsonEncode]
  | cons r rest ih =>
      intro out
      simp only [List.foldl_cons, ih]
      simp [jsonEncode]

theorem foldl_foldl_json :
    ∀ (css : List (List (List Nat))) (out : List Nat),
      css.foldl (fun o cs => cs.foldl (fun o2 r => o2 ++ r ++ [10]) o) out
        = out ++ jsonEncode (flat css) := by
  intro css
  induction css with
  | nil => intro out; simp [flat, jsonEncode]
  | cons c cs ih =>
      intro out
      show List.foldl (fun o cs => cs.foldl (fun o2 r => o2 ++ r ++ [10]) o)
          (c.foldl (fun o2 r => o2 ++ r ++ [10]) out) cs = _
      rw [foldl_json_wr c out, ih (out ++ jsonEncode c)]
      simp [flat, jsonEncode_append]

theorem foldl_proto_wr {α : Type} (marshal : α → List Nat) :
    ∀ (ms : List α) (out : List Nat),
      ms.foldl (fun o m => o ++ be32enc (marshal m).length ++ marshal m) out
        = out ++ protoEncode marshal ms := by
  intro ms
  induction ms with
  | nil => intro out; simp [protoEncode]
  | cons m rest ih =>
      intro out
      simp only [List.foldl_cons, ih]
      simp [protoEncode]

theorem foldl_foldl_proto {α : Type} (marshal : α → List Nat) :
    ∀ (css : List (List α)) (out : List Nat),
      css.foldl
          (fun o cs => cs.foldl (fun o2 m => o2 ++ be32enc (marshal m).length ++ marshal m) o)
          out
        = out ++ protoEncode marshal (flat css) := by
  intro css
  induction css with
  | nil => intro out; simp [flat, protoEncode]
  | cons c cs ih =>
      intro out
      show List.foldl
          (fun o cs => cs.foldl (fun o2 m => o2 ++ be32enc (marshal m).length ++ marshal m) o)
          (c.foldl (fun o2 m => o2 ++ be32enc (marshal m).length ++ marshal m) out) cs = _
      rw [foldl_proto_wr marshal c out, ih (out ++ protoEncode marshal c)]
      simp [flat, protoEncode_append]

theorem foldl_csv_wr {ρ : Type} :
    ∀ (rs : List ρ) (out : List ρ),
      rs.foldl (fun o r => o ++ [r]) out = out ++ rs := by
  intro rs
  induction rs with
  | nil => intro out; simp
  | cons r rest ih => intro out; simp only [List.foldl_cons, ih]; simp

theorem protoReadTo_encode_cons {α : Type} (um : List Nat → Except GoErr α)
    (marshal : α → List Nat) (hum : ∀ m, um (marshal m) = Except.ok m)
    (hlen : ∀ m, (marshal m).length < 2 ^ 32) (m : α) (rest : List α) :
    protoReadTo um (protoEncode marshal (m :: rest))
      = (Except.ok m, protoEncode marshal rest) := by
  have hr1 : readFull 4 (protoEncode marshal (m :: rest))
      = (Except.ok (be32enc (marshal m).length), marshal m ++ protoEncode marshal rest) := by
    show readFull 4 (be32enc (marshal m).length ++ (marshal m ++ protoEncode marshal rest)) = _
    rw [readFull_ok (by simp [be32enc])]
    rw [show (4 : Nat) = (be32enc (marshal m).length).length from rfl,
        List.take_left, List.drop_left]
  have hr2 : readFull (marshal m).length (marshal m ++ protoEncode marshal rest)
      = (Except.ok (marshal m), protoEncode marshal rest) := by
    rw [readFull_ok (by simp), List.take_left, List.drop_left]
  unfold protoReadTo
  rw [hr1]
  show (match readFull (be32 (be32enc (marshal m).length))
        (marshal m ++ protoEncode marshal rest) with
      | (Except.error e, s2) => ((Except.error e : Except GoErr α), s2)
      | (Except.ok block, s2) => (um block, s2)) = _
  rw [be32_be32enc _ (hlen m), hr2]
  show (um (marshal m), protoEncode marshal rest) = _
  rw [hum m]

theorem joinPartGo_list {ρ : Type} (c : List ρ) (out : List ρ) (widx : Nat) :
    joinPartGo true listStep (fun o r => o ++ [r]) (fun _ => none) (c.length + 1) c out widx
      = (out ++ c, widx + c.length, none) := by
  rw [joinPartGo_noFail true listStep (fun s rs => s = rs)
      (fun s hs => ⟨[], by rw [hs]; rfl⟩)
      (fun s r rs hs => ⟨rs, by rw [hs]; rfl, rfl⟩)
      (fun o r => o ++ [r]) c (c.length + 1) c out widx rfl le_rfl]
  rw [foldl_csv_wr]

theorem joinCsvFilesGo_cons {ρ : Type} (writeErr openErr : Nat → Option GoErr)
    (p : List ρ) (rest : List (List ρ)) (i widx : Nat) (out : List ρ) :
    joinCsvFilesGo writeErr openErr (p :: rest) i widx out
      = match openErr i with
        | some _ => (out, some (GoErr.errorf "can not open file"))
        | none =>
            match listStep p with
            | (Except.error _, _) => (out, some (GoErr.errorf "can not read header in file"))
            | (Except.ok header, prows) =>
                match (if i = 0 then writeErr widx else none) with
                | some _ => (out, some (GoErr.errorf "can not write header to file"))
                | none =>
                    let widx1 := if i = 0 then widx + 1 else widx
                    let out1 := if i = 0 then out ++ [header] else out
                    match joinPartGo true listStep (fun o r => o ++ [r]) writeErr
                        (prows.length + 1) prows out1 widx1 with
                    | (out2, _, some e) => (out2, some e)
                    | (out2, widx2, none) =>
                        joinCsvFilesGo writeErr openErr rest (i + 1) widx2 out2 := rfl

theorem joinCsvFilesGo_tail {ρ : Type} (header : ρ) :
    ∀ (css : List (List ρ)) (i widx : Nat) (out : List ρ), 1 ≤ i →
      joinCsvFilesGo (fun _ => none) (fun _ => none)
          (css.map (fun c => header :: c)) i widx out
        = (out ++ flat css, none) := by
  intro css
  induction css with
  | nil =>
      intro i widx out hi
      show (out, none) = _
      simp [flat]
  | cons c cs ih =>
      intro i widx out hi
      have hi0 : ¬ i = 0 := by omega
      rw [List.map_cons, joinCsvFilesGo_cons]
      simp only [listStep, if_neg hi0, joinPartGo_list]
      rw [ih (i + 1) (widx + c.length) (out ++ c) (by omega)]
      simp [flat]

theorem joinCsvFilesGo_all {ρ : Type} (header : ρ) (c : List ρ) (cs : List (List ρ)) :
    joinCsvFilesGo (fun _ => none) (fun _ => none)
        ((c :: cs).map (fun c => header :: c)) 0 0 []
      = (header :: flat (c :: cs), none) := by
  show (match joinPartGo true listStep (fun o r => o ++ [r]) (fun _ => none)
        (c.length + 1) c ([] ++ [header]) (0 + 1) with
      | (out2, _, some e) => (out2, some e)
      | (out2, widx2, none) =>
          joinCsvFilesGo (fun _ => none) (fun _ => none)
            (cs.map (fun c => header :: c)) (0 + 1) widx2 out2)
    = _
  rw [joinPartGo_list c ([] ++ [header]) (0 + 1)]
  show joinCsvFilesGo (fun _ => none) (fun _ => none)
      (cs.map (fun c => header :: c)) (0 + 1) (0 + 1 + c.length) ([] ++ [header] ++ c)
    = _
  rw [joinCsvFilesGo_tail header cs (0 + 1) (0 + 1 + c.length) ([] ++ [header] ++ c) (by omega)]
  simp [flat]

theorem partFiles_map_val {ρ ω : Type} (g : List ρ → ω) (partFn : Nat → String)
    (hdr : List ρ) : ∀ (cs : List (List ρ)) (n : Nat),
      (partFiles partFn hdr n cs).map (fun f => g f.2) = cs.map (fun c => g (hdr ++ c)) := by
  intro cs
  induction cs with
  | nil => intro n; rfl
  | cons c cs ih => intro n; simp only [partFiles, List.map_cons, ih (n + 1)]

/-- Claim C3 counterexample: for the row format with zero data rows the
round trip fails.  Splitting a header-only row file produces no parts (with a
nil error, the header having been consumed before the loop), and joining zero
parts emits an empty stream: the header row — and hence its encoded byte
line — is lost, so the joined byte stream is not identical to the pre-split
encoded input. -/
theorem claim3_counterexample :
    splitCsvFileGo [["h"]] 10 (fun n => Nat.repr n) (fun _ => none) (fun _ => none)
      = { parts := [], err := none, files := [] } ∧
    joinCsvFilesGo (ρ := List String) (fun _ => none) (fun _ => none) [] 0 0 []
      = ([], none) ∧
    flat (([] : List (List String)).map (fun r => (csvEncodeRow r).toList))
      ≠ flat (([["h"]] : List (List String)).map (fun r => (csvEncodeRow r).toList)) :=
  ⟨rfl, rfl, by decide⟩

/-- Claim C3 (amended): joining, in order, the parts produced by Split
re-emits a byte stream identical to the pre-split encoded input — for the
object format whenever the input is a newline-terminated encoding of records
without embedded newline bytes, for the message format whenever the marshaler
is reversible and length-prefixes fit in 32 bits, and for the row format
(modulo the header being written once instead of once per part) whenever the
input has at least one data row; a row-format input with zero data rows
yields zero parts, whose join is empty. -/
theorem claim3_split_join_roundtrip :
    (∀ (recs : List (List Nat)) (L : Int) (partFn : Nat → String),
       1 ≤ L → (∀ x ∈ recs, (10 : Nat) ∉ x) →
       (splitJsonFileGo (jsonEncode recs) L partFn (fun _ => none) (fun _ => none)).err
           = none ∧
       joinJsonFilesGo
           ((splitJsonFileGo (jsonEncode recs) L partFn (fun _ => none)
               (fun _ => none)).files.map (fun f => jsonEncode f.2))
           (fun _ => none) (fun _ => none)
         = (jsonEncode recs, none)) ∧
    (∀ (ρ : Type) (header : ρ) (rest : List ρ) (L : Int) (partFn : Nat → String)
        (enc : ρ → List Nat),
       1 ≤ L → rest ≠ [] →
       joinCsvFilesGo (fun _ => none) (fun _ => none)
           ((splitCsvFileGo (header :: rest) L partFn (fun _ => none)
               (fun _ => none)).files.map Prod.snd) 0 0 []
         = (header :: rest, none) ∧
       flat (((joinCsvFilesGo (fun _ => none) (fun _ => none)
           ((splitCsvFileGo (header :: rest) L partFn (fun _ => none)
               (fun _ => none)).files.map Prod.snd) 0 0 []).1).map enc)
         = flat ((header :: rest).map enc)) ∧
    (∀ (α : Type) (um : List Nat → Except GoErr α) (marshal : α → List Nat)
        (msgs : List α) (L : Int) (partFn : Nat → String),
       1 ≤ L → (∀ m, um (marshal m) = Except.ok m) →
       (∀ m, (marshal m).length < 2 ^ 32) →
       (splitProtoFileGo um (protoEncode marshal msgs) L partFn (fun _ => none)
           (fun _ => none)).err = none ∧
       joinProtoFilesGo um marshal
           ((splitProtoFileGo um (protoEncode marshal msgs) L partFn (fun _ => none)
               (fun _ => none)).files.map (fun f => protoEncode marshal f.2))
           (fun _ => none) (fun _ => none)
         = (protoEncode marshal msgs, none)) := by
  refine ⟨?_, ?_, ?_⟩
  · -- object format
    intro recs L partFn hL h10
    have hnilJ : ∀ s, (fun (s : JsonReaderSt) rs =>
            s.lastErr = none ∧ s.buf = jsonEncode rs ∧ ∀ x ∈ rs, (10 : Nat) ∉ x) s [] →
        ∃ s2, jsonReadRaw s = (Except.error GoErr.eof, s2) := by
      rintro ⟨buf, lastErr⟩ ⟨h1, h2, h3⟩
      simp only at h1 h2
      rw [show jsonEncode [] = [] from rfl] at h2
      subst h1; subst h2
      exact ⟨⟨[], none⟩, rfl⟩
    have hconsJ : ∀ s r rs, (fun (s : JsonReaderSt) rs =>
            s.lastErr = none ∧ s.buf = jsonEncode rs ∧ ∀ x ∈ rs, (10 : Nat) ∉ x) s (r :: rs) →
        ∃ s2, jsonReadRaw s = (Except.ok r, s2) ∧
          s2.lastErr = none ∧ s2.buf = jsonEncode rs ∧ ∀ x ∈ rs, (10 : Nat) ∉ x := by
      rintro ⟨buf, lastErr⟩ r rs ⟨h1, h2, h3⟩
      simp only at h1 h2
      subst h1; subst h2
      exact ⟨⟨jsonEncode rs, none⟩, jsonReadRaw_encode_cons (h3 r (by simp)) rs,
        rfl, rfl, fun x hx => h3 x (by simp [hx])⟩
    obtain ⟨herr, hfiles, hparts⟩ :=
      splitLoopGo_noFail_spec true (fun s => jsonReadRaw s)
        (fun s rs => s.lastErr = none ∧ s.buf = jsonEncode rs ∧ ∀ x ∈ rs, (10 : Nat) ∉ x)
        hnilJ hconsJ L hL partFn none
        recs ((jsonEncode recs).length + 1) (initSplitSt ⟨jsonEncode recs, none⟩ L)
        ⟨rfl, rfl, h10⟩ (by have := jsonEncode_length recs; omega) hL le_rfl (fun _ => rfl)
    have hout2 : (splitLoopGo true (fun s => jsonReadRaw s) L partFn (fun _ => none)
        (fun _ => none) none ((jsonEncode recs).length + 1)
        (initSplitSt ⟨jsonEncode recs, none⟩ L)).2 = none := herr.trans rfl
    have keyJ : splitJsonFileGo (jsonEncode recs) L partFn (fun _ => none) (fun _ => none)
        = { parts := (splitLoopGo true (fun s => jsonReadRaw s) L partFn (fun _ => none)
              (fun _ => none) none ((jsonEncode recs).length + 1)
              (initSplitSt ⟨jsonEncode recs, none⟩ L)).1.parts,
            err := none,
            files := (splitLoopGo true (fun s => jsonReadRaw s) L partFn (fun _ => none)
                (fun _ => none) none ((jsonEncode recs).length + 1)
                (initSplitSt ⟨jsonEncode recs, none⟩ L)).1.closed
              ++ (splitLoopGo true (fun s => jsonReadRaw s) L partFn (fun _ => none)
                (fun _ => none) none ((jsonEncode recs).length + 1)
                (initSplitSt ⟨jsonEncode recs, none⟩ L)).1.cur.toList } :=
      splitFinish_none hout2
    simp only [initSplitSt, sub_self, Int.toNat_zero, List.take_zero, List.drop_zero,
      List.nil_append, Option.toList] at hfiles
    have hfilesJ : (splitJsonFileGo (jsonEncode recs) L partFn (fun _ => none)
        (fun _ => none)).files = partFiles partFn [] 1 (chunksOf L.toNat recs) := by
      rw [keyJ]
      exact hfiles
    refine ⟨by rw [keyJ], ?_⟩
    rw [hfilesJ]
    rw [partFiles_map_val (fun c => jsonEncode c) partFn [] (chunksOf L.toNat recs) 1]
    simp only [List.nil_append]
    show joinFilesGo true (fun s => jsonReadRaw s) (fun out r => out ++ r ++ [10])
        (fun _ => none) (fun _ => none) (fun s => s.buf.length + 1)
        (((chunksOf L.toNat recs).map (fun c => jsonEncode c)).map
          (fun b => (⟨b, none⟩ : JsonReaderSt))) 0 0 [] = _
    rw [List.map_map]
    rw [joinFilesGo_noFail true (fun s => jsonReadRaw s)
        (fun s rs => s.lastErr = none ∧ s.buf = jsonEncode rs ∧ ∀ x ∈ rs, (10 : Nat) ∉ x)
        hnilJ hconsJ (fun out r => out ++ r ++ [10]) (fun s => s.buf.length + 1)
        ((chunksOf L.toNat recs).map
          ((fun b => (⟨b, none⟩ : JsonReaderSt)) ∘ (fun c => jsonEncode c)))
        (chunksOf L.toNat recs)
        (forallTwo_map_self ((fun b => (⟨b, none⟩ : JsonReaderSt)) ∘ (fun c => jsonEncode c))
          _ (chunksOf L.toNat recs)
          (fun c hc => ⟨⟨rfl, rfl, fun x hx => h10 x (mem_of_mem_chunksOf hc hx)⟩,
            by have := jsonEncode_length c; simp; omega⟩))
        0 0 []]
    rw [foldl_foldl_json, flat_chunksOf]
    rfl
  · -- row format
    intro ρ header rest L partFn enc hL hne
    obtain ⟨herr, hfiles, hparts⟩ :=
      splitLoopGo_noFail_spec true listStep (fun s rs => s = rs)
        (fun s hs => ⟨[], by rw [hs]; rfl⟩)
        (fun s r rs hs => ⟨rs, by rw [hs]; rfl, rfl⟩)
        L hL partFn (some header) rest (rest.length + 1) (initSplitSt rest L) rfl le_rfl
        (show (1 : Int) ≤ (initSplitSt (σ := List ρ) (ρ := ρ) rest L).cnt from hL)
        (show (initSplitSt (σ := List ρ) (ρ := ρ) rest L).cnt ≤ L from le_rfl)
        (fun _ => rfl)
    have hout2 : (splitLoopGo true listStep L partFn (fun _ => none) (fun _ => none)
        (some header) (rest.length + 1) (initSplitSt rest L)).2 = none := herr.trans rfl
    have key : splitCsvFileGo (header :: rest) L partFn (fun _ => none) (fun _ => none)
        = { parts := (splitLoopGo true listStep L partFn (fun _ => none) (fun _ => none)
              (some header) (rest.length + 1) (initSplitSt rest L)).1.parts,
            err := none,
            files := (splitLoopGo true listStep L partFn (fun _ => none) (fun _ => none)
                (some header) (rest.length + 1) (initSplitSt rest L)).1.closed
              ++ (splitLoopGo true listStep L partFn (fun _ => none) (fun _ => none)
                (some header) (rest.length + 1) (initSplitSt rest L)).1.cur.toList } :=
      splitFinish_none hout2
    simp only [initSplitSt, sub_self, Int.toNat_zero, List.take_zero, List.drop_zero,
      List.nil_append, Option.toList] at hfiles
    have hfilesC : (splitCsvFileGo (header :: rest) L partFn (fun _ => none)
        (fun _ => none)).files = partFiles partFn [header] 1 (chunksOf L.toNat rest) := by
      rw [key]
      exact hfiles
    have hjoin : joinCsvFilesGo (fun _ => none) (fun _ => none)
        ((splitCsvFileGo (header :: rest) L partFn (fun _ => none)
            (fun _ => none)).files.map Prod.snd) 0 0 []
        = (header :: rest, none) := by
      rw [hfilesC, partFiles_map_snd partFn [header] (chunksOf L.toNat rest) 1]
      have hmap : (chunksOf L.toNat rest).map (fun c => [header] ++ c)
          = (chunksOf L.toNat rest).map (fun c => header :: c) := by
        simp
      rw [hmap]
      cases hch : chunksOf L.toNat rest with
      | nil => exact absurd hch (chunksOf_ne_nil L.toNat hne)
      | cons c cs =>
          rw [joinCsvFilesGo_all header c cs]
          rw [show flat (c :: cs) = rest from by rw [← hch]; exact flat_chunksOf _ _]
    exact ⟨hjoin, by rw [hjoin]⟩
  · -- message format
    intro α um marshal msgs L partFn hL hum hlen
    have hnilP : ∀ s, (fun (s : List Nat) ms => s = protoEncode marshal ms) s [] →
        ∃ s2, protoReadTo um s = (Except.error GoErr.eof, s2) := by
      intro s hs
      rw [show protoEncode marshal [] = [] from rfl] at hs
      subst hs
      exact ⟨[], rfl⟩
    have hconsP : ∀ s m ms, (fun (s : List Nat) ms => s = protoEncode marshal ms) s (m :: ms) →
        ∃ s2, protoReadTo um s = (Except.ok m, s2) ∧ s2 = protoEncode marshal ms := by
      intro s m ms hs
      subst hs
      exact ⟨protoEncode marshal ms, protoReadTo_encode_cons um marshal hum hlen m ms, rfl⟩
    obtain ⟨herr, hfiles, hparts⟩ :=
      splitLoopGo_noFail_spec false (protoReadTo um)
        (fun s ms => s = protoEncode marshal ms) hnilP hconsP L hL partFn none
        msgs ((protoEncode marshal msgs).length + 1)
        (initSplitSt (protoEncode marshal msgs) L)
        rfl (by have := protoEncode_length marshal msgs; omega) hL le_rfl (fun _ => rfl)
    have hout2 : (splitLoopGo false (protoReadTo um) L partFn (fun _ => none)
        (fun _ => none) none ((protoEncode marshal msgs).length + 1)
        (initSplitSt (protoEncode marshal msgs) L)).2 = some GoErr.eof := herr.trans rfl
    have keyP : splitProtoFileGo um (protoEncode marshal msgs) L partFn (fun _ => none)
        (fun _ => none)
        = { parts := (splitLoopGo false (protoReadTo um) L partFn (fun _ => none)
              (fun _ => none) none ((protoEncode marshal msgs).length + 1)
              (initSplitSt (protoEncode marshal msgs) L)).1.parts,
            err := none,
            files := (splitLoopGo false (protoReadTo um) L partFn (fun _ => none)
                (fun _ => none) none ((protoEncode marshal msgs).length + 1)
                (initSplitSt (protoEncode marshal msgs) L)).1.closed
              ++ (splitLoopGo false (protoReadTo um) L partFn (fun _ => none)
                (fun _ => none) none ((protoEncode marshal msgs).length + 1)
                (initSplitSt (protoEncode marshal msgs) L)).1.cur.toList } :=
      splitFinish_eof hout2
    simp only [initSplitSt, sub_self, Int.toNat_zero, List.take_zero, List.drop_zero,
      List.nil_append, Option.toList] at hfiles
    have hfilesP : (splitProtoFileGo um (protoEncode marshal msgs) L partFn (fun _ => none)
        (fun _ => none)).files = partFiles partFn [] 1 (chunksOf L.toNat msgs) := by
      rw [keyP]
      exact hfiles
    refine ⟨by rw [keyP], ?_⟩
    rw [hfilesP]
    rw [partFiles_map_val (fun c => protoEncode marshal c) partFn [] (chunksOf L.toNat msgs) 1]
    simp only [List.nil_append]
    show joinFilesGo false (protoReadTo um)
        (fun out m => out ++ be32enc (marshal m).length ++ marshal m)
        (fun _ => none) (fun _ => none) (fun s => s.length + 1)
        ((chunksOf L.toNat msgs).map (fun c => protoEncode marshal c)) 0 0 [] = _
    rw [show (chunksOf L.toNat msgs).map (fun c => protoEncode marshal c)
          = (chunksOf L.toNat msgs).map
              ((fun b => b) ∘ (fun c => protoEncode marshal c)) from by simp]
    rw [joinFilesGo_noFail false (protoReadTo um)
        (fun s ms => s = protoEncode marshal ms) hnilP hconsP
        (fun out m => out ++ be32enc (marshal m).length ++ marshal m)
        (fun s => s.length + 1)
        ((chunksOf L.toNat msgs).map ((fun b => b) ∘ (fun c => protoEncode marshal c)))
        (chunksOf L.toNat msgs)
        (forallTwo_map_self ((fun b => b) ∘ (fun c => protoEncode marshal c)) _
          (chunksOf L.toNat msgs)
          (fun c hc => ⟨rfl, by have := protoEncode_length marshal c; simp; omega⟩))
        0 0 []]
    rw [foldl_foldl_proto, flat_chunksOf]
    rfl

theorem claim3_witness :
    ((1 : Int) ≤ 2 ∧ (∀ x ∈ [[65], [66], [67]], (10 : Nat) ∉ x)) ∧
    ((splitJsonFileGo (jsonEncode [[65], [66], [67]]) 2 Nat.repr
        (fun _ => none) (fun _ => none)).err = none ∧
     joinJsonFilesGo
        ((splitJsonFileGo (jsonEncode [[65], [66], [67]]) 2 Nat.repr
            (fun _ => none) (fun _ => none)).files.map (fun f => jsonEncode f.2))
        (fun _ => none) (fun _ => none)
      = (jsonEncode [[65], [66], [67]], none)) :=
  ⟨⟨by decide, by decide⟩,
   claim3_split_join_roundtrip.1 [[65], [66], [67]] 2 Nat.repr (by decide) (by decide)⟩
